import Mathlib

/-!
# MANET experiment orchestrator (`scratch/main.cc`)

A shallow embedding of the `Experiment` class of `scratch/main.cc`: its
constructor, `Run`, `CheckTransferredData`, `ReceivePacket`,
`PrintPacketInfo` and `SetupPacketReceive`, together with the part of the
ns-3 event engine these functions drive (`Simulator::Schedule`,
`Simulator::Stop`, `Simulator::Run`, `Simulator::Destroy`).

Conventions.
* C++ `int` is a 32-bit two's complement integer, `uint32_t` a 32-bit
  unsigned one.  Values are kept in `Int` / `Nat` and every arithmetic
  step of the source that can leave the range is followed by the explicit
  conversion (`toInt32`, `toUInt32`).
* Simulated time is a count of nanoseconds (the default ns-3 resolution).
* The ns-3 library is not part of the sources.  What the orchestrator
  needs from it and cannot be read off `main.cc` is collected in the
  record `Ns3` and passed as a parameter.
* Standard output is kept as a list of structured lines (`Line`);
  `Line.render` gives the characters written to `std::cout`.
-/

set_option linter.dupNamespace false
set_option linter.unusedVariables false

namespace Manet

/-! ## Machine integers -/

/-- Conversion of a mathematical integer to `uint32_t` (reduction modulo `2^32`). -/
def toUInt32 (x : Int) : Nat := (x % 4294967296).toNat

/-- Conversion of an unsigned value to `int` (two's complement, 32 bits). -/
def toInt32 (u : Nat) : Int :=
  if u % 4294967296 < 2147483648 then ((u % 4294967296 : Nat) : Int)
  else ((u % 4294967296 : Nat) : Int) - 4294967296

/-- Largest value of a C++ `int`. -/
def INT_MAX : Int := 2147483647

/-- Compound assignment `x += n` for `int x` and `uint32_t n`: both operands are
converted to `unsigned`, added modulo `2^32`, and the result is converted back
to `int`. -/
def addAssignU32 (x : Int) (n : Nat) : Int := toInt32 (toUInt32 x + n)

/-- Compound assignment `x += k` for `int x` and an `int` constant `k`
(two's complement wrap-around on overflow). -/
def addAssignInt (x : Int) (k : Int) : Int := toInt32 (toUInt32 (x + k))

/-! ## Data model -/

/-- Counterpart of `Seconds(s)` for the whole-second literals of the source; a time
is a number of nanoseconds. -/
def Seconds (s : Nat) : Nat := s * 1000000000

/-- An IPv4 address as its 32-bit value. -/
abbrev Ipv4Address := Nat

/-- The generic, type-tagged `ns3::Address`. -/
structure Address where
  type : Nat
  data : List Nat
deriving DecidableEq, Repr

/-- Counterpart of `InetSocketAddress(addr, port)`. -/
structure InetSocketAddress where
  ipv4 : Ipv4Address
  port : Nat
deriving DecidableEq, Repr

/-- A node, identified by its id; the first container created in a process
holds the ids `0, 1, 2, ...` in order. -/
structure Node where
  id : Nat
deriving DecidableEq, Repr

/-- A packet; only its size (a `uint32_t`) is observed by the orchestrator. -/
structure Packet where
  size : Nat
deriving DecidableEq, Repr

/-- Counterpart of `packet->GetSize()`. -/
def Packet.GetSize (p : Packet) : Nat := p.size

/-- A datagram waiting in a socket: the packet and the address it came from. -/
structure Datagram where
  packet : Packet
  sender : Address
deriving DecidableEq, Repr

/-- A UDP socket as the orchestrator sees it. -/
structure Socket where
  node : Node
  bound : Option InetSocketAddress
  recvCallback : Bool
  rxQueue : List Datagram
deriving DecidableEq, Repr

/-- An installed on/off application (a traffic flow). -/
structure Application where
  node : Node
  remote : InetSocketAddress
  startTime : Nat
  stopTime : Nat
deriving DecidableEq, Repr

/-- The lines the program writes to standard output. -/
inductive Line where
  | tick (t : Nat) (packets : Int) (bytes : Int)
  | packetFrom (t : Nat) (nodeId : Nat) (sender : Address)
  | packetAnon (t : Nat) (nodeId : Nat)
deriving DecidableEq, Repr

/-- What the orchestrator uses of the ns-3 library without `main.cc` fixing it. -/
structure Ns3 where
  /-- Text produced by `std::cout << Simulator::Now().GetSeconds()`. -/
  showSeconds : Nat → String
  /-- Counterpart of `InetSocketAddress::IsMatchingType`. -/
  IsMatchingType : Address → Bool
  /-- Text produced by `std::cout << InetSocketAddress::ConvertFrom(a).GetIpv4()`. -/
  showIpv4 : Address → String
  /-- The address `Ipv4AddressHelper::Assign` gives to the device with this index. -/
  Assign : Nat → Ipv4Address

/-- Characters written to `std::cout` for one line (`std::endl` included). -/
def Line.render (lib : Ns3) : Line → String
  | .tick t p b =>
      "Time [" ++ lib.showSeconds t ++ "] Packets: " ++ toString p ++ " Bytes: " ++ toString b ++ "\n"
  | .packetFrom t n a =>
      lib.showSeconds t ++ " " ++ toString n ++ " received one packet from " ++ lib.showIpv4 a ++ "\n"
  | .packetAnon t n =>
      lib.showSeconds t ++ " " ++ toString n ++ " received one packet" ++ "\n"

/-- Failures of the embedded program. -/
inductive Error where
  /-- A container was indexed at or beyond its size. -/
  | indexOutOfRange
  /-- The engine loop was not given enough steps (an artefact of the embedding). -/
  | outOfFuel
deriving DecidableEq, Repr

/-- The fields of `class Experiment`. -/
structure Experiment where
  c : List Node
  devices : List Node
  interfaces : List Ipv4Address
  nNodes : Int
  nSinks : Int
  totalBytes : Int
  totalPackets : Int
deriving DecidableEq, Repr

/-- Counterpart of `NodeContainer::Get(i)`. -/
def NodeContainerGet (c : List Node) (i : Nat) : Except Error Node :=
  match c.get? i with
  | some n => .ok n
  | none => .error .indexOutOfRange

/-- Counterpart of `Ipv4InterfaceContainer::GetAddress(i)`. -/
def GetAddress (interfaces : List Ipv4Address) (i : Nat) : Except Error Ipv4Address :=
  match interfaces.get? i with
  | some a => .ok a
  | none => .error .indexOutOfRange

/-! ## The event engine

The engine is the ns-3 simulator, which `main.cc` drives through
`Simulator::Schedule`, `Simulator::Stop`, `Simulator::Run`, `Simulator::Now` and
`Simulator::Destroy`.  It executes events in non-decreasing order of their time
stamps and, among events with the same time stamp, in the order in which they were
scheduled (spec, section 5).  `Simulator::Stop(delay)` schedules the stop like any
other event; `Simulator::Run` processes events until the list is empty or the stop
event has run.
-/

/-- The handlers that are ever put on the event list. -/
inductive EventImpl where
  /-- The reporter, `&Experiment::CheckTransferredData`. -/
  | CheckTransferredData
  /-- The engine's own stop handler, scheduled by `Simulator::Stop(delay)`. -/
  | Stop
  /-- The network stack hands datagrams to the socket with this index and
  invokes its receive callback. -/
  | Deliver (socket : Nat) (datagrams : List Datagram)
deriving DecidableEq, Repr

/-- A scheduled event: time stamp, insertion number (events scheduled later get
larger numbers), handler. -/
structure Event where
  ts : Nat
  uid : Nat
  impl : EventImpl
deriving DecidableEq, Repr

/-- Execution order of events: by time stamp, then by insertion number. -/
def Event.le (a b : Event) : Prop := a.ts < b.ts ∨ (a.ts = b.ts ∧ a.uid ≤ b.uid)

instance Event.decLe : DecidableRel Event.le := fun a b =>
  inferInstanceAs (Decidable (a.ts < b.ts ∨ (a.ts = b.ts ∧ a.uid ≤ b.uid)))

/-- State of the simulator singleton. -/
structure Simulator where
  now : Nat
  uid : Nat
  events : List Event
  stop : Bool
deriving DecidableEq, Repr

/-- Counterpart of `Simulator::Schedule(delay, handler)`: the event is stamped
`now + delay` and placed behind every pending event that is not later. -/
def Simulator.Schedule (delay : Nat) (impl : EventImpl) (s : Simulator) : Simulator :=
  { s with uid := s.uid + 1,
           events := s.events.orderedInsert Event.le ⟨s.now + delay, s.uid, impl⟩ }

/-- Counterpart of `Simulator::Stop(delay)`: the stop handler is an ordinary event. -/
def Simulator.Stop (delay : Nat) (s : Simulator) : Simulator :=
  s.Schedule delay .Stop

/-- Everything the program acts on. -/
structure World where
  exp : Experiment
  sim : Simulator
  sockets : List Socket
  apps : List Application
  nodeSizes : List (Nat × Nat × Nat)
  out : List Line
deriving DecidableEq, Repr

/-- Outcome of a run: the final world, or the failure together with the world
as it was when the failure happened. -/
abbrev Result := Except (Error × World) World

/-! ## The orchestrator -/

/-- Counterpart of `Experiment::Experiment(int nNodes)`, executed in a fresh process:
the four scalar assignments, `c.Create(nNodes)` (whose parameter is a `uint32_t`),
one device per node, one interface per device. -/
def Experiment.Experiment (lib : Ns3) (nNodes : Int) : World :=
  let c := (List.range (toUInt32 nNodes)).map Node.mk
  let devices := c
  let interfaces := (List.range devices.length).map lib.Assign
  { exp := { c := c, devices := devices, interfaces := interfaces, nNodes := nNodes,
             nSinks := 10, totalBytes := 0, totalPackets := 0 },
    sim := { now := 0, uid := 0, events := [], stop := false },
    sockets := [], apps := [], nodeSizes := [], out := [] }

/-- The packet size the constructor configures for every on/off application,
`Config::SetDefault("ns3::OnOffApplication::PacketSize", StringValue("64"))`. -/
def OnOffPacketSize : Nat := 64

/-- Counterpart of `Experiment::CheckTransferredData`: print the counters, then
`Simulator::Schedule(Seconds(1.0), &Experiment::CheckTransferredData, this)`. -/
def Experiment.CheckTransferredData (w : World) : World :=
  { w with out := w.out ++ [Line.tick w.sim.now w.exp.totalPackets w.exp.totalBytes],
           sim := w.sim.Schedule (Seconds 1) .CheckTransferredData }

/-- Counterpart of `PrintPacketInfo`: the one line printed for a received packet. -/
def PrintPacketInfo (lib : Ns3) (now : Nat) (socket : Socket) (_packet : Packet)
    (senderAddress : Address) : Line :=
  if lib.IsMatchingType senderAddress then
    Line.packetFrom now socket.node.id senderAddress
  else
    Line.packetAnon now socket.node.id

/-- Counterpart of `socket->RecvFrom(senderAddress)`: the next queued datagram, if any. -/
def Socket.RecvFrom (s : Socket) : Option (Packet × Address) × Socket :=
  match s.rxQueue with
  | [] => (none, s)
  | d :: rest => (some (d.packet, d.sender), { s with rxQueue := rest })

/-- Counterpart of `Experiment::ReceivePacket`: the `while` loop around `RecvFrom`. -/
def Experiment.ReceivePacket (lib : Ns3) (w : World) (socket : Socket) : World × Socket :=
  match h : socket.RecvFrom with
  | (none, socket1) => (w, socket1)
  | (some (packet, senderAddress), socket1) =>
    let w1 : World :=
      { w with exp := { w.exp with totalBytes := addAssignU32 w.exp.totalBytes packet.GetSize } }
    let w2 : World :=
      { w1 with exp := { w1.exp with totalPackets := addAssignInt w1.exp.totalPackets 1 } }
    let w3 : World :=
      { w2 with out := w2.out ++ [PrintPacketInfo lib w2.sim.now socket1 packet senderAddress] }
    Experiment.ReceivePacket lib w3 socket1
termination_by socket.rxQueue.length
decreasing_by
  unfold Socket.RecvFrom at h
  split at h
  · simp at h
  · rename_i d rest hq
    simp only [Prod.mk.injEq, Option.some.injEq] at h
    rw [← h.2, hq]
    simp

/-- Counterpart of `Experiment::SetupPacketReceive`: create a UDP socket on the node,
bind it to `(addr, 9)`, register `ReceivePacket` as its receive callback. -/
def Experiment.SetupPacketReceive (w : World) (addr : Ipv4Address) (node : Node) :
    World × Socket :=
  let sink : Socket := { node := node, bound := none, recvCallback := false, rxQueue := [] }
  let localAddr : InetSocketAddress := ⟨addr, 9⟩
  let sink := { sink with bound := some localAddr }
  let sink := { sink with recvCallback := true }
  ({ w with sockets := w.sockets ++ [sink] }, sink)

/-- The first loop of `Run`: `anim.UpdateNodeSize(i, 15, 15)` for `i < c.GetN()`. -/
def Experiment.Run.nodeSizes (w : World) : World :=
  { w with nodeSizes := w.nodeSizes ++ (List.range w.exp.c.length).map (fun i => (i, 15, 15)) }

/-- The body of the second loop of `Run`, for loop index `i`. -/
def Experiment.Run.flow (w : World) (i : Nat) : Result :=
  match GetAddress w.exp.interfaces i with
  | .error e => .error (e, w)
  | .ok addr =>
    match NodeContainerGet w.exp.c i with
    | .error e => .error (e, w)
    | .ok node =>
      let w1 := (Experiment.SetupPacketReceive w addr node).1
      let remoteAdress : InetSocketAddress := ⟨addr, 9⟩
      match NodeContainerGet w1.exp.c (toUInt32 ((i : Int) + w1.exp.nSinks)) with
      | .error e => .error (e, w1)
      | .ok src =>
        let temp : Application :=
          { node := src, remote := remoteAdress, startTime := 0, stopTime := 0 }
        let temp := { temp with startTime := Seconds 100 }
        let temp := { temp with stopTime := Seconds 200 }
        .ok { w1 with apps := w1.apps ++ [temp] }

/-- The second loop of `Run`, `for (int i = 0; i < nSinks; i++)`, with `k`
iterations left to do from index `i`. -/
def Experiment.Run.flows : Nat → Nat → World → Result
  | 0, _, w => .ok w
  | k + 1, i, w =>
    match Experiment.Run.flow w i with
    | .error e => .error e
    | .ok w1 => Experiment.Run.flows k (i + 1) w1

/-- A delivery made by the network stack, which is outside the sources: `delay`
after the engine is started the datagrams reach the socket with index `socket`. -/
structure Arrival where
  delay : Nat
  socket : Nat
  datagrams : List Datagram
deriving DecidableEq, Repr

/-- Run the handler of an event. -/
def Simulator.Invoke (lib : Ns3) (impl : EventImpl) (w : World) : World :=
  match impl with
  | .CheckTransferredData => Experiment.CheckTransferredData w
  | .Stop => { w with sim := { w.sim with stop := true } }
  | .Deliver i datagrams =>
    match w.sockets.get? i with
    | none => w
    | some s =>
      if s.recvCallback then
        let r := Experiment.ReceivePacket lib w { s with rxQueue := s.rxQueue ++ datagrams }
        { r.1 with sockets := r.1.sockets.set i r.2 }
      else
        { w with sockets := w.sockets.set i { s with rxQueue := s.rxQueue ++ datagrams } }

/-- Counterpart of `ProcessOneEvent`: take the first event off the list, advance
the clock to its time stamp, run its handler. -/
def Simulator.ProcessOneEvent (lib : Ns3) (w : World) : World :=
  match w.sim.events with
  | [] => w
  | e :: rest =>
    Simulator.Invoke lib e.impl { w with sim := { w.sim with events := rest, now := e.ts } }

/-- The loop of `Simulator::Run`, `while (!m_events->IsEmpty() && !m_stop)`,
bounded by `fuel` iterations. -/
def Simulator.loop (lib : Ns3) : Nat → World → Result
  | 0, w => if w.sim.events.isEmpty || w.sim.stop then .ok w else .error (.outOfFuel, w)
  | fuel + 1, w =>
    if w.sim.events.isEmpty || w.sim.stop then .ok w
    else Simulator.loop lib fuel (Simulator.ProcessOneEvent lib w)

/-- Counterpart of `Simulator::Run`. -/
def Simulator.Run (lib : Ns3) (fuel : Nat) (w : World) : Result :=
  Simulator.loop lib fuel { w with sim := { w.sim with stop := false } }

/-- Counterpart of `Simulator::Destroy`: pending events are dropped. -/
def Simulator.Destroy (w : World) : World :=
  { w with sim := { w.sim with events := [] } }

/-- The network stack puts its deliveries on the event list. -/
def scheduleArrivals (arrivals : List Arrival) (s : Simulator) : Simulator :=
  arrivals.foldl (fun s a => s.Schedule a.delay (.Deliver a.socket a.datagrams)) s

/-- Counterpart of `Experiment::Run`.  `arrivals` are the deliveries of the network
stack during the run, `fuel` bounds the number of events the engine processes. -/
def Experiment.Run (lib : Ns3) (arrivals : List Arrival) (fuel : Nat) (w : World) : Result :=
  let w := Experiment.Run.nodeSizes w
  match Experiment.Run.flows w.exp.nSinks.toNat 0 w with
  | .error e => .error e
  | .ok w =>
    let w := Experiment.CheckTransferredData w
    let w := { w with sim := w.sim.Stop (Seconds 200) }
    let w := { w with sim := scheduleArrivals arrivals w.sim }
    match Simulator.Run lib fuel w with
    | .error e => .error e
    | .ok w => .ok (Simulator.Destroy w)

/-! ## Vocabulary of the statements -/

/-- Sum of the sizes of a list of datagrams. -/
def totalSize (q : List Datagram) : Nat := (q.map (fun d => d.packet.GetSize)).sum

/-- The byte counter after the datagrams of `q` have been added one by one. -/
def bytesAfter (tb : Int) (q : List Datagram) : Int :=
  q.foldl (fun acc d => addAssignU32 acc d.packet.GetSize) tb

/-- The packet counter after the datagrams of `q` have been counted one by one. -/
def packetsAfter (tp : Int) (q : List Datagram) : Int :=
  q.foldl (fun acc _ => addAssignInt acc 1) tp

/-! ### Callback invocations in arbitrary order -/

/-- One callback invocation by the engine: the receive callback on a socket
holding queued datagrams, or the reporter. -/
inductive Op where
  | receive (socket : Socket)
  | tick
deriving DecidableEq, Repr

/-- Effect of one callback invocation. -/
def step (lib : Ns3) (w : World) : Op → World
  | .receive socket => (Experiment.ReceivePacket lib w socket).1
  | .tick => Experiment.CheckTransferredData w

/-- Effect of a sequence of callback invocations. -/
def exec (lib : Ns3) (w : World) (ops : List Op) : World := ops.foldl (step lib) w

/-- All datagrams handed to the receive callback by a sequence of invocations. -/
def received : List Op → List Datagram
  | [] => []
  | .receive socket :: ops => socket.rxQueue ++ received ops
  | .tick :: ops => received ops

/-- The reporter lines of an output, as (time, packets, bytes). -/
def tickLines : List Line → List (Nat × Int × Int)
  | [] => []
  | .tick t p b :: rest => (t, p, b) :: tickLines rest
  | _ :: rest => tickLines rest

/-! ### Sample data -/

/-- A sample instance of the library parameters. -/
def sampleLib : Ns3 :=
  { showSeconds := fun t => toString (t / 1000000000),
    IsMatchingType := fun a => a.type == 1,
    showIpv4 := fun a => String.intercalate "." (a.data.map toString),
    Assign := fun i => 167772161 + i }

/-- A sender address of the expected type (10.0.0.11, port 49153). -/
def sampleSender : Address := { type := 1, data := [10, 0, 0, 11] }

/-- A 64-byte datagram. -/
def datagram64 : Datagram := { packet := { size := 64 }, sender := sampleSender }

/-- A socket as `SetupPacketReceive` makes it for sink 0, holding the given datagrams. -/
def sinkSocket (q : List Datagram) : Socket :=
  { node := { id := 0 }, bound := some ⟨167772161, 9⟩, recvCallback := true, rxQueue := q }

/-- The world after construction with 20 nodes, with the byte counter set to a given value. -/
def worldWithBytes (tb : Int) : World :=
  let w := Experiment.Experiment sampleLib 20
  { w with exp := { w.exp with totalBytes := tb } }

/-! ### Results, pending events, invariants of the engine loop -/

/-- The world carried by a result, whether the run ended normally or not. -/
def Result.world : Result → World
  | .ok w => w
  | .error (_, w) => w

/-- The failure a result carries, if any. -/
def Result.failure : Result → Option Error
  | .ok _ => none
  | .error (e, _) => some e

/-- The receive endpoint `SetupPacketReceive` creates for sink `i`. -/
def sinkOf (lib : Ns3) (i : Nat) : Socket :=
  { node := { id := i }, bound := some ⟨lib.Assign i, 9⟩, recvCallback := true, rxQueue := [] }

/-- The flow the loop of `Run` installs in iteration `i`. -/
def flowOf (lib : Ns3) (i : Nat) : Application :=
  { node := { id := i + 10 }, remote := ⟨lib.Assign i, 9⟩,
    startTime := Seconds 100, stopTime := Seconds 200 }

/-- Whether an event is a pending invocation of the reporter. -/
def Event.isTick (e : Event) : Bool :=
  match e.impl with
  | .CheckTransferredData => true
  | _ => false

/-- Whether an event is the engine's stop event. -/
def Event.isStop (e : Event) : Bool :=
  match e.impl with
  | .Stop => true
  | _ => false

/-- Bytes a pending event will hand to a receive callback: those of a delivery that
is due before the stop at 200 s and goes to one of the `m` existing sockets. -/
def Event.bytes (m : Nat) (e : Event) : Nat :=
  match e.impl with
  | .Deliver i datagrams => if e.ts < Seconds 200 ∧ i < m then totalSize datagrams else 0
  | _ => 0

/-- Datagrams a pending event will hand to a receive callback (see `Event.bytes`). -/
def Event.count (m : Nat) (e : Event) : Nat :=
  match e.impl with
  | .Deliver i datagrams => if e.ts < Seconds 200 ∧ i < m then datagrams.length else 0
  | _ => 0

/-- Bytes still to be delivered by the pending events, with `m` sockets. -/
def pendingBytes (m : Nat) (events : List Event) : Nat := (events.map (Event.bytes m)).sum

/-- Datagrams still to be delivered by the pending events, with `m` sockets. -/
def pendingCount (m : Nat) (events : List Event) : Nat := (events.map (Event.count m)).sum

/-- The arrivals that reach a receive callback during a run: those due before the
stop at 200 s and addressed to one of the ten sink sockets. -/
def delivered (arrivals : List Arrival) : List Arrival :=
  arrivals.filter (fun a => decide (a.delay < Seconds 200) && decide (a.socket < 10))

/-- Bytes delivered by a list of arrivals. -/
def arrivalBytes (arrivals : List Arrival) : Nat :=
  (arrivals.map (fun a => totalSize a.datagrams)).sum

/-- Datagrams delivered by a list of arrivals. -/
def arrivalCount (arrivals : List Arrival) : Nat :=
  (arrivals.map (fun a => a.datagrams.length)).sum

/-- The simulated times of the reporter lines of an output. -/
def tickTimes (out : List Line) : List Nat := (tickLines out).map (fun x => x.1)

/-- The event list while the engine runs: not stopped, in execution order, holding
one reporter event (at second `k`, insertion number `uT`) and one stop event (at
second 200, insertion number `uS`), the reporter having printed at seconds
`0, ..., k - 1`. -/
structure Pending (k uT uS : Nat) (w : World) : Prop where
  running : w.sim.stop = false
  sorted : w.sim.events.Sorted Event.le
  tick : w.sim.events.filter Event.isTick = [⟨Seconds k, uT, .CheckTransferredData⟩]
  halt : w.sim.events.filter Event.isStop = [⟨Seconds 200, uS, .Stop⟩]
  fresh : uS < w.sim.uid
  order : k = 200 → uS < uT
  range : k ≤ 200
  printed : tickTimes w.out = (List.range k).map Seconds

/-- What the engine leaves alone: containers, scalar parameters, flows, endpoints. -/
structure Frame (w0 w : World) : Prop where
  c : w.exp.c = w0.exp.c
  devices : w.exp.devices = w0.exp.devices
  interfaces : w.exp.interfaces = w0.exp.interfaces
  nNodes : w.exp.nNodes = w0.exp.nNodes
  nSinks : w.exp.nSinks = w0.exp.nSinks
  apps : w.apps = w0.apps
  nodeSizes : w.nodeSizes = w0.nodeSizes
  sockets : w.sockets = w0.sockets
  clean : ∀ s ∈ w0.sockets, s.recvCallback = true ∧ s.rxQueue = []

/-- Counters within range while the engine runs: the event list is in execution
order, the stop event (insertion number `uS`) is pending until it has run, deliveries
stamped 200 s or later were scheduled after it, and the counters are non-negative,
able to take in everything still to be delivered without leaving the range of `int`,
and never below a value already printed. -/
structure Bounded (uS : Nat) (w : World) : Prop where
  sorted : w.sim.events.Sorted Event.le
  halt : w.sim.stop = false → (⟨Seconds 200, uS, .Stop⟩ : Event) ∈ w.sim.events
  late : ∀ e ∈ w.sim.events, ∀ i d, e.impl = .Deliver i d → Seconds 200 ≤ e.ts → uS < e.uid
  clean : ∀ s ∈ w.sockets, s.recvCallback = true ∧ s.rxQueue = []
  bytes0 : 0 ≤ w.exp.totalBytes
  bytes : w.exp.totalBytes + pendingBytes w.sockets.length w.sim.events ≤ 2147483647
  packets0 : 0 ≤ w.exp.totalPackets
  packets : w.exp.totalPackets + pendingCount w.sockets.length w.sim.events ≤ 2147483647
  printed : (tickLines w.out).Pairwise (fun a b => a.2.1 ≤ b.2.1 ∧ a.2.2 ≤ b.2.2)
  last : ∀ x ∈ tickLines w.out, x.2.1 ≤ w.exp.totalPackets ∧ x.2.2 ≤ w.exp.totalBytes

instance Event.le_total : IsTotal Event Event.le :=
  ⟨fun a b => by unfold Event.le; omega⟩

instance Event.le_trans : IsTrans Event Event.le :=
  ⟨fun a b c => by unfold Event.le; intro h1 h2; omega⟩

/-- The event list when `Run` hands control to the engine: the reporter has run once
(at time 0) and is pending for second 1, the stop event is pending for second 200,
and the deliveries of the network stack follow. -/
def startSim (arrivals : List Arrival) : Simulator :=
  scheduleArrivals arrivals
    { now := 0, uid := 2,
      events := [⟨Seconds 1, 0, .CheckTransferredData⟩, ⟨Seconds 200, 1, .Stop⟩],
      stop := false }

/-- The world when `Run` hands control to the engine, for `nNodes >= 20`. -/
def startWorld (lib : Ns3) (n : Int) (arrivals : List Arrival) : World :=
  { exp := (Experiment.Experiment lib n).exp,
    sim := { startSim arrivals with stop := false },
    sockets := (List.range 10).map (sinkOf lib),
    apps := (List.range 10).map (flowOf lib),
    nodeSizes := (List.range n.toNat).map (fun i => (i, 15, 15)),
    out := [Line.tick 0 0 0] }

/-! ## Arithmetic of the counters -/

theorem toUInt32_toInt32 (u : Nat) : toUInt32 (toInt32 u) = u % 4294967296 := by
  unfold toUInt32 toInt32
  split <;> omega

theorem toInt32_mod (u : Nat) : toInt32 (u % 4294967296) = toInt32 u := by
  unfold toInt32
  simp

theorem addAssignU32_exact (x : Int) (n : Nat) (hlo : -2147483648 ≤ x)
    (hhi : x + n ≤ 2147483647) : addAssignU32 x n = x + n := by
  unfold addAssignU32 toUInt32 toInt32
  split <;> omega

theorem addAssignInt_exact (x : Int) (hlo : -2147483648 ≤ x)
    (hhi : x + 1 ≤ 2147483647) : addAssignInt x 1 = x + 1 := by
  unfold addAssignInt toUInt32 toInt32
  split <;> omega

/-! ## The receive loop in closed form -/

theorem ReceivePacket_closed (lib : Ns3) (q : List Datagram) :
    ∀ (w : World) (s : Socket), s.rxQueue = q →
      Experiment.ReceivePacket lib w s =
        ({ w with exp := { w.exp with totalBytes := bytesAfter w.exp.totalBytes q,
                                      totalPackets := packetsAfter w.exp.totalPackets q },
                  out := w.out ++ q.map (fun d =>
                    PrintPacketInfo lib w.sim.now s d.packet d.sender) },
         { s with rxQueue := [] }) := by
  induction q with
  | nil =>
    intro w s hq
    rw [Experiment.ReceivePacket]
    have h1 : s.RecvFrom = (none, s) := by simp [Socket.RecvFrom, hq]
    split
    · rename_i s1 h
      rw [h1] at h
      simp only [Prod.mk.injEq, true_and] at h
      subst h
      cases s
      simp_all [bytesAfter, packetsAfter]
    · rename_i p a s1 h
      rw [h1] at h
      simp at h
  | cons d rest ih =>
    intro w s hq
    rw [Experiment.ReceivePacket]
    have h1 : s.RecvFrom = (some (d.packet, d.sender), { s with rxQueue := rest }) := by
      simp [Socket.RecvFrom, hq]
    split
    · rename_i s1 h
      rw [h1] at h
      simp at h
    · rename_i p a s1 h
      rw [h1] at h
      simp only [Prod.mk.injEq, Option.some.injEq] at h
      obtain ⟨⟨hp, ha⟩, hs⟩ := h
      subst hp ha hs
      rw [ih _ _ rfl]
      simp [bytesAfter, packetsAfter, PrintPacketInfo]

theorem totalSize_cons (d : Datagram) (q : List Datagram) :
    totalSize (d :: q) = d.packet.GetSize + totalSize q := by
  simp [totalSize]

theorem totalSize_append (p q : List Datagram) :
    totalSize (p ++ q) = totalSize p + totalSize q := by
  simp [totalSize]

theorem bytesAfter_append (tb : Int) (p q : List Datagram) :
    bytesAfter tb (p ++ q) = bytesAfter (bytesAfter tb p) q := by
  simp [bytesAfter]

theorem packetsAfter_append (tp : Int) (p q : List Datagram) :
    packetsAfter tp (p ++ q) = packetsAfter (packetsAfter tp p) q := by
  simp [packetsAfter]

theorem bytesAfter_exact (q : List Datagram) :
    ∀ tb : Int, -2147483648 ≤ tb → tb + totalSize q ≤ 2147483647 →
      bytesAfter tb q = tb + totalSize q := by
  induction q with
  | nil => intro tb _ _; simp [bytesAfter, totalSize]
  | cons d rest ih =>
    intro tb hlo hhi
    rw [totalSize_cons] at hhi
    have h1 : addAssignU32 tb d.packet.GetSize = tb + d.packet.GetSize :=
      addAssignU32_exact tb _ hlo (by omega)
    have h2 : bytesAfter tb (d :: rest) = bytesAfter (addAssignU32 tb d.packet.GetSize) rest := by
      simp [bytesAfter]
    rw [h2, h1, ih (tb + d.packet.GetSize) (by omega) (by push_cast at hhi ⊢; omega), totalSize_cons]
    push_cast
    omega

theorem packetsAfter_exact (q : List Datagram) :
    ∀ tp : Int, -2147483648 ≤ tp → tp + q.length ≤ 2147483647 →
      packetsAfter tp q = tp + q.length := by
  induction q with
  | nil => intro tp _ _; simp [packetsAfter]
  | cons d rest ih =>
    intro tp hlo hhi
    simp only [List.length_cons, Nat.cast_add, Nat.cast_one] at hhi
    have h1 : addAssignInt tp 1 = tp + 1 := addAssignInt_exact tp hlo (by omega)
    have h2 : packetsAfter tp (d :: rest) = packetsAfter (addAssignInt tp 1) rest := by
      simp [packetsAfter]
    rw [h2, h1, ih (tp + 1) (by omega) (by omega)]
    simp only [List.length_cons, Nat.cast_add, Nat.cast_one]
    omega

theorem bytesAfter_wrap (q : List Datagram) :
    ∀ u : Nat, bytesAfter (toInt32 u) q = toInt32 (u + totalSize q) := by
  induction q with
  | nil => intro u; simp [bytesAfter, totalSize]
  | cons d rest ih =>
    intro u
    have h2 : bytesAfter (toInt32 u) (d :: rest)
        = bytesAfter (toInt32 (toUInt32 (toInt32 u) + d.packet.GetSize)) rest := by
      simp [bytesAfter, addAssignU32]
    rw [h2, ih, toUInt32_toInt32, totalSize_cons, ← toInt32_mod,
      ← toInt32_mod (u + (d.packet.GetSize + totalSize rest))]
    congr 1
    omega

theorem packetsAfter_wrap (q : List Datagram) :
    ∀ u : Nat, packetsAfter (toInt32 u) q = toInt32 (u + q.length) := by
  induction q with
  | nil => intro u; simp [packetsAfter]
  | cons d rest ih =>
    intro u
    have h3 : toInt32 (toUInt32 (toInt32 u + 1)) = toInt32 (u + 1) := by
      unfold toUInt32 toInt32
      split <;> split <;> split <;> omega
    have h2 : packetsAfter (toInt32 u) (d :: rest) = packetsAfter (toInt32 (u + 1)) rest := by
      simp [packetsAfter, addAssignInt, h3]
    rw [h2, ih, List.length_cons]
    congr 1
    omega

/-! ## Sequences of callback invocations -/

theorem received_append (p q : List Op) : received (p ++ q) = received p ++ received q := by
  induction p with
  | nil => simp [received]
  | cons op rest ih =>
    cases op <;> simp [received, ih]

theorem exec_append (lib : Ns3) (w : World) (p q : List Op) :
    exec lib w (p ++ q) = exec lib (exec lib w p) q := by
  simp [exec]

theorem step_counters (lib : Ns3) (w : World) (op : Op) :
    (step lib w op).exp.totalBytes = bytesAfter w.exp.totalBytes (received [op]) ∧
    (step lib w op).exp.totalPackets = packetsAfter w.exp.totalPackets (received [op]) := by
  cases op with
  | receive socket =>
    simp [step, received, ReceivePacket_closed lib socket.rxQueue w socket rfl]
  | tick =>
    simp [step, received, Experiment.CheckTransferredData, bytesAfter, packetsAfter]

theorem exec_counters (lib : Ns3) (ops : List Op) :
    ∀ w : World,
      (exec lib w ops).exp.totalBytes = bytesAfter w.exp.totalBytes (received ops) ∧
      (exec lib w ops).exp.totalPackets = packetsAfter w.exp.totalPackets (received ops) := by
  induction ops with
  | nil => intro w; simp [exec, received, bytesAfter, packetsAfter]
  | cons op rest ih =>
    intro w
    have h1 : exec lib w (op :: rest) = exec lib (step lib w op) rest := by simp [exec]
    have h2 : received (op :: rest) = received [op] ++ received rest :=
      received_append [op] rest
    rw [h1, h2, bytesAfter_append, packetsAfter_append, (ih _).1, (ih _).2,
      (step_counters lib w op).1, (step_counters lib w op).2]
    exact ⟨rfl, rfl⟩

theorem totalSize_of_all_64 (q : List Datagram) (h : ∀ d ∈ q, d.packet.GetSize = 64) :
    totalSize q = q.length * 64 := by
  induction q with
  | nil => simp [totalSize]
  | cons d rest ih =>
    rw [totalSize_cons, ih (fun x hx => h x (List.mem_cons_of_mem _ hx)),
      h d (List.mem_cons_self _ _), List.length_cons]
    omega

theorem fresh_counters (lib : Ns3) (n : Int) :
    (Experiment.Experiment lib n).exp.totalBytes = 0 ∧
    (Experiment.Experiment lib n).exp.totalPackets = 0 := by
  simp [Experiment.Experiment]

theorem exec_tick_mem (lib : Ns3) (ops : List Op) :
    ∀ (w : World) (t : Nat) (p b : Int), Line.tick t p b ∈ (exec lib w ops).out →
      Line.tick t p b ∈ w.out ∨
      ∃ pre post, ops = pre ++ Op.tick :: post ∧
        p = (exec lib w pre).exp.totalPackets ∧ b = (exec lib w pre).exp.totalBytes := by
  induction ops using List.reverseRecOn with
  | nil => intro w t p b h; left; simpa [exec] using h
  | append_singleton pre op ih =>
    intro w t p b h
    rw [exec_append] at h
    cases op with
    | receive socket =>
      have h1 : exec lib (exec lib w pre) [Op.receive socket]
          = (Experiment.ReceivePacket lib (exec lib w pre) socket).1 := by simp [exec, step]
      rw [h1, ReceivePacket_closed lib socket.rxQueue _ socket rfl] at h
      simp only [List.mem_append, List.mem_map] at h
      rcases h with h | ⟨d, _, hd⟩
      · rcases ih w t p b h with h2 | ⟨a, c, hac, hp, hb⟩
        · left; exact h2
        · right; exact ⟨a, c ++ [Op.receive socket], by simp [hac], hp, hb⟩
      · exfalso
        unfold PrintPacketInfo at hd
        split at hd <;> simp at hd
    | tick =>
      have h1 : exec lib (exec lib w pre) [Op.tick]
          = Experiment.CheckTransferredData (exec lib w pre) := by simp [exec, step]
      rw [h1] at h
      simp only [Experiment.CheckTransferredData, List.mem_append, List.mem_singleton,
        Line.tick.injEq] at h
      rcases h with h | ⟨_, hp, hb⟩
      · rcases ih w t p b h with h2 | ⟨a, c, hac, hp, hb⟩
        · left; exact h2
        · right; exact ⟨a, c ++ [Op.tick], by simp [hac], hp, hb⟩
      · right; exact ⟨pre, [], rfl, hp, hb⟩

theorem counters_64 (lib : Ns3) (n : Int) (ops : List Op)
    (h64 : ∀ d ∈ received ops, d.packet.GetSize = 64)
    (hcount : (received ops).length < 33554432) :
    (exec lib (Experiment.Experiment lib n) ops).exp.totalPackets = (received ops).length ∧
    (exec lib (Experiment.Experiment lib n) ops).exp.totalBytes = (received ops).length * 64 := by
  have hc := exec_counters lib ops (Experiment.Experiment lib n)
  rw [(fresh_counters lib n).1, (fresh_counters lib n).2] at hc
  have hs := totalSize_of_all_64 _ h64
  rw [hc.1, hc.2, bytesAfter_exact _ 0 (by omega) (by rw [hs]; push_cast; omega),
    packetsAfter_exact _ 0 (by omega) (by omega), hs]
  push_cast
  omega

theorem totalSize_replicate (n : Nat) (d : Datagram) :
    totalSize (List.replicate n d) = n * d.packet.GetSize := by
  simp [totalSize]

theorem exec_fresh_wrap (lib : Ns3) (n : Int) (ops : List Op) :
    (exec lib (Experiment.Experiment lib n) ops).exp.totalBytes
      = toInt32 (totalSize (received ops)) ∧
    (exec lib (Experiment.Experiment lib n) ops).exp.totalPackets
      = toInt32 (received ops).length := by
  have hc := exec_counters lib ops (Experiment.Experiment lib n)
  rw [(fresh_counters lib n).1, (fresh_counters lib n).2] at hc
  have h0 : (0 : Int) = toInt32 0 := by decide
  rw [hc.1, hc.2, h0, bytesAfter_wrap, packetsAfter_wrap]
  simp

/-! ## Claims about the receive callback and the counters -/

/-- C3 (amended): `ReceivePacket` is total; on a queue of `n` datagrams and any prior
counters it leaves the queue empty, prints one line per datagram and applies
`totalBytes += size`, `totalPackets += 1` once per datagram in queue order.  Whenever
the prior counters are in the range of `int` and the sums do not exceed `INT_MAX`, this
adds exactly `n` to `totalPackets` and exactly the sum of the sizes to `totalBytes`. -/
theorem ReceivePacket_counts_each_datagram_once (lib : Ns3) (w : World) (socket : Socket) :
    (Experiment.ReceivePacket lib w socket).2.rxQueue = [] ∧
    (Experiment.ReceivePacket lib w socket).1.out.length
      = w.out.length + socket.rxQueue.length ∧
    (Experiment.ReceivePacket lib w socket).1.exp.totalBytes
      = socket.rxQueue.foldl (fun acc d => addAssignU32 acc d.packet.GetSize)
          w.exp.totalBytes ∧
    (Experiment.ReceivePacket lib w socket).1.exp.totalPackets
      = socket.rxQueue.foldl (fun acc _ => addAssignInt acc 1) w.exp.totalPackets ∧
    (-2147483648 ≤ w.exp.totalBytes →
      w.exp.totalBytes + totalSize socket.rxQueue ≤ INT_MAX →
      (Experiment.ReceivePacket lib w socket).1.exp.totalBytes
        = w.exp.totalBytes + totalSize socket.rxQueue) ∧
    (-2147483648 ≤ w.exp.totalPackets →
      w.exp.totalPackets + socket.rxQueue.length ≤ INT_MAX →
      (Experiment.ReceivePacket lib w socket).1.exp.totalPackets
        = w.exp.totalPackets + socket.rxQueue.length) := by
  unfold INT_MAX
  rw [ReceivePacket_closed lib socket.rxQueue w socket rfl]
  refine ⟨rfl, by simp, rfl, rfl, ?_, ?_⟩
  · intro hb0 hb
    exact bytesAfter_exact _ _ hb0 hb
  · intro hp0 hp
    exact packetsAfter_exact _ _ hp0 hp

/-- Witness for C3: two datagrams of 64 bytes received after construction. -/
theorem ReceivePacket_counts_each_datagram_once_witness :
    (Experiment.ReceivePacket sampleLib (Experiment.Experiment sampleLib 20)
        (sinkSocket [datagram64, datagram64])).2.rxQueue = [] ∧
    (Experiment.ReceivePacket sampleLib (Experiment.Experiment sampleLib 20)
        (sinkSocket [datagram64, datagram64])).1.exp.totalBytes = 0 + 128 ∧
    (Experiment.ReceivePacket sampleLib (Experiment.Experiment sampleLib 20)
        (sinkSocket [datagram64, datagram64])).1.exp.totalPackets = 0 + 2 :=
  ⟨(ReceivePacket_counts_each_datagram_once sampleLib (Experiment.Experiment sampleLib 20)
      (sinkSocket [datagram64, datagram64])).1,
   (ReceivePacket_counts_each_datagram_once sampleLib (Experiment.Experiment sampleLib 20)
      (sinkSocket [datagram64, datagram64])).2.2.2.2.1 (by decide) (by decide),
   (ReceivePacket_counts_each_datagram_once sampleLib (Experiment.Experiment sampleLib 20)
      (sinkSocket [datagram64, datagram64])).2.2.2.2.2 (by decide) (by decide)⟩

/-- C3 as stated fails: with `totalBytes` at `INT_MAX`, draining one 64-byte datagram
does not increase `totalBytes` by 64; the counter wraps to a negative value. -/
theorem ReceivePacket_bytes_wrap_at_INT_MAX :
    (Experiment.ReceivePacket sampleLib (worldWithBytes 2147483647)
        (sinkSocket [datagram64])).1.exp.totalBytes = -2147483585 ∧
    (Experiment.ReceivePacket sampleLib (worldWithBytes 2147483647)
        (sinkSocket [datagram64])).1.exp.totalBytes
      ≠ (worldWithBytes 2147483647).exp.totalBytes + totalSize (sinkSocket [datagram64]).rxQueue := by
  rw [ReceivePacket_closed sampleLib [datagram64] _ _ rfl]
  decide

/-- C4 (amended): with every received datagram of the configured size, 64 bytes, in
every state reached from a fresh `Experiment` by receive callbacks and reporter ticks
in any order, `totalBytes = totalPackets * 64`, and every reporter line printed
satisfies the same equation, as long as fewer than `2^25` datagrams have been
received. -/
theorem totalBytes_eq_64_totalPackets (lib : Ns3) (n : Int) (ops : List Op)
    (h64 : ∀ d ∈ received ops, d.packet.GetSize = OnOffPacketSize)
    (hcount : (received ops).length < 33554432) :
    (exec lib (Experiment.Experiment lib n) ops).exp.totalBytes
      = (exec lib (Experiment.Experiment lib n) ops).exp.totalPackets * 64 ∧
    ∀ t p b, Line.tick t p b ∈ (exec lib (Experiment.Experiment lib n) ops).out →
      b = p * 64 := by
  constructor
  · rw [(counters_64 lib n ops h64 hcount).1, (counters_64 lib n ops h64 hcount).2]
  · intro t p b h
    rcases exec_tick_mem lib ops _ t p b h with h1 | ⟨pre, post, hops, hp, hb⟩
    · simp [Experiment.Experiment] at h1
    · have hr : received ops = received pre ++ received post := by
        rw [hops, received_append]
        simp [received]
      have h64a : ∀ d ∈ received pre, d.packet.GetSize = 64 := fun d hd =>
        h64 d (by rw [hr]; exact List.mem_append_left _ hd)
      have hca : (received pre).length < 33554432 := by
        rw [hr, List.length_append] at hcount
        omega
      rw [hp, hb, (counters_64 lib n pre h64a hca).1, (counters_64 lib n pre h64a hca).2]

/-- Witness for C4: a tick, one callback draining two 64-byte datagrams, a tick. -/
theorem totalBytes_eq_64_totalPackets_witness :
    (exec sampleLib (Experiment.Experiment sampleLib 20)
      [Op.tick, Op.receive (sinkSocket [datagram64, datagram64]), Op.tick]).exp.totalBytes
      = (exec sampleLib (Experiment.Experiment sampleLib 20)
      [Op.tick, Op.receive (sinkSocket [datagram64, datagram64]), Op.tick]).exp.totalPackets * 64 ∧
    ∀ t p b, Line.tick t p b ∈ (exec sampleLib (Experiment.Experiment sampleLib 20)
      [Op.tick, Op.receive (sinkSocket [datagram64, datagram64]), Op.tick]).out →
      b = p * 64 :=
  totalBytes_eq_64_totalPackets sampleLib 20
    [Op.tick, Op.receive (sinkSocket [datagram64, datagram64]), Op.tick]
    (by decide) (by decide)

/-- C4 as stated fails: after one callback draining `2^25` datagrams of 64 bytes each,
`totalPackets` is `2^25` and `totalBytes` has wrapped to `-2^31`. -/
theorem totalBytes_ne_64_totalPackets_after_wrap :
    (∀ d ∈ received [Op.receive (sinkSocket (List.replicate 33554432 datagram64))],
      d.packet.GetSize = OnOffPacketSize) ∧
    (exec sampleLib (Experiment.Experiment sampleLib 20)
      [Op.receive (sinkSocket (List.replicate 33554432 datagram64))]).exp.totalPackets
      = 33554432 ∧
    (exec sampleLib (Experiment.Experiment sampleLib 20)
      [Op.receive (sinkSocket (List.replicate 33554432 datagram64))]).exp.totalBytes
      = -2147483648 ∧
    (exec sampleLib (Experiment.Experiment sampleLib 20)
      [Op.receive (sinkSocket (List.replicate 33554432 datagram64))]).exp.totalBytes
      ≠ (exec sampleLib (Experiment.Experiment sampleLib 20)
      [Op.receive (sinkSocket (List.replicate 33554432 datagram64))]).exp.totalPackets * 64 := by
  have hr : received [Op.receive (sinkSocket (List.replicate 33554432 datagram64))]
      = List.replicate 33554432 datagram64 := by
    simp only [received, sinkSocket, List.append_nil]
  have hw := exec_fresh_wrap sampleLib 20
    [Op.receive (sinkSocket (List.replicate 33554432 datagram64))]
  rw [hr, totalSize_replicate, List.length_replicate] at hw
  rw [hr, hw.1, hw.2]
  refine ⟨?_, by decide, by decide, by decide⟩
  intro d hd
  rw [List.eq_of_mem_replicate hd]
  rfl

theorem exec_fresh_exact (lib : Ns3) (n : Int) (ops : List Op)
    (hbytes : (totalSize (received ops) : Int) ≤ 2147483647)
    (hcount : ((received ops).length : Int) ≤ 2147483647) :
    (exec lib (Experiment.Experiment lib n) ops).exp.totalBytes = totalSize (received ops) ∧
    (exec lib (Experiment.Experiment lib n) ops).exp.totalPackets = (received ops).length := by
  have hc := exec_counters lib ops (Experiment.Experiment lib n)
  rw [(fresh_counters lib n).1, (fresh_counters lib n).2] at hc
  rw [hc.1, hc.2, bytesAfter_exact _ 0 (by omega) (by omega),
    packetsAfter_exact _ 0 (by omega) (by omega)]
  simp

/-- C5 (amended): both counters are 0 after construction, and along every sequence
of receive callbacks and reporter ticks applied afterwards both stay non-negative and
do not decrease in a step, as long as the total number of bytes and the total number
of datagrams received, this step included, do not exceed `INT_MAX`. -/
theorem counters_nonnegative_nondecreasing (lib : Ns3) (n : Int) (ops : List Op) (op : Op)
    (hbytes : (totalSize (received (ops ++ [op])) : Int) ≤ INT_MAX)
    (hcount : ((received (ops ++ [op])).length : Int) ≤ INT_MAX) :
    (Experiment.Experiment lib n).exp.totalBytes = 0 ∧
    (Experiment.Experiment lib n).exp.totalPackets = 0 ∧
    0 ≤ (exec lib (Experiment.Experiment lib n) ops).exp.totalBytes ∧
    0 ≤ (exec lib (Experiment.Experiment lib n) ops).exp.totalPackets ∧
    (exec lib (Experiment.Experiment lib n) ops).exp.totalBytes
      ≤ (step lib (exec lib (Experiment.Experiment lib n) ops) op).exp.totalBytes ∧
    (exec lib (Experiment.Experiment lib n) ops).exp.totalPackets
      ≤ (step lib (exec lib (Experiment.Experiment lib n) ops) op).exp.totalPackets := by
  unfold INT_MAX at hbytes hcount
  have hstep : step lib (exec lib (Experiment.Experiment lib n) ops) op
      = exec lib (Experiment.Experiment lib n) (ops ++ [op]) := by
    rw [exec_append]
    simp [exec]
  have h2 := exec_fresh_exact lib n (ops ++ [op]) hbytes hcount
  rw [received_append, totalSize_append] at hbytes
  rw [received_append, List.length_append] at hcount
  have h1 := exec_fresh_exact lib n ops (by push_cast at hbytes; omega)
    (by push_cast at hcount; omega)
  rw [hstep, h1.1, h1.2, h2.1, h2.2, received_append, totalSize_append, List.length_append]
  refine ⟨(fresh_counters lib n).1, (fresh_counters lib n).2, ?_, ?_, ?_, ?_⟩ <;>
    push_cast <;> omega

/-- Witness for C5: a tick, then a callback draining two 64-byte datagrams. -/
theorem counters_nonnegative_nondecreasing_witness :
    (Experiment.Experiment sampleLib 20).exp.totalBytes = 0 ∧
    (Experiment.Experiment sampleLib 20).exp.totalPackets = 0 ∧
    0 ≤ (exec sampleLib (Experiment.Experiment sampleLib 20) [Op.tick]).exp.totalBytes ∧
    0 ≤ (exec sampleLib (Experiment.Experiment sampleLib 20) [Op.tick]).exp.totalPackets ∧
    (exec sampleLib (Experiment.Experiment sampleLib 20) [Op.tick]).exp.totalBytes
      ≤ (step sampleLib (exec sampleLib (Experiment.Experiment sampleLib 20) [Op.tick])
          (Op.receive (sinkSocket [datagram64, datagram64]))).exp.totalBytes ∧
    (exec sampleLib (Experiment.Experiment sampleLib 20) [Op.tick]).exp.totalPackets
      ≤ (step sampleLib (exec sampleLib (Experiment.Experiment sampleLib 20) [Op.tick])
          (Op.receive (sinkSocket [datagram64, datagram64]))).exp.totalPackets :=
  counters_nonnegative_nondecreasing sampleLib 20 [Op.tick]
    (Op.receive (sinkSocket [datagram64, datagram64])) (by decide) (by decide)

/-- C5 as stated fails: after a callback draining `2^25 - 1` datagrams of 64 bytes,
`totalBytes` is `2147483584`; a second callback draining one more 64-byte datagram
leaves it at `-2147483648`, smaller than before and negative. -/
theorem totalBytes_decreases_after_wrap :
    (exec sampleLib (Experiment.Experiment sampleLib 20)
      [Op.receive (sinkSocket (List.replicate 33554431 datagram64))]).exp.totalBytes
      = 2147483584 ∧
    (step sampleLib (exec sampleLib (Experiment.Experiment sampleLib 20)
      [Op.receive (sinkSocket (List.replicate 33554431 datagram64))])
      (Op.receive (sinkSocket [datagram64]))).exp.totalBytes = -2147483648 ∧
    ¬ ((exec sampleLib (Experiment.Experiment sampleLib 20)
      [Op.receive (sinkSocket (List.replicate 33554431 datagram64))]).exp.totalBytes
      ≤ (step sampleLib (exec sampleLib (Experiment.Experiment sampleLib 20)
      [Op.receive (sinkSocket (List.replicate 33554431 datagram64))])
      (Op.receive (sinkSocket [datagram64]))).exp.totalBytes) ∧
    ¬ (0 ≤ (step sampleLib (exec sampleLib (Experiment.Experiment sampleLib 20)
      [Op.receive (sinkSocket (List.replicate 33554431 datagram64))])
      (Op.receive (sinkSocket [datagram64]))).exp.totalBytes) := by
  have hstep : step sampleLib (exec sampleLib (Experiment.Experiment sampleLib 20)
      [Op.receive (sinkSocket (List.replicate 33554431 datagram64))])
      (Op.receive (sinkSocket [datagram64]))
      = exec sampleLib (Experiment.Experiment sampleLib 20)
        ([Op.receive (sinkSocket (List.replicate 33554431 datagram64))]
          ++ [Op.receive (sinkSocket [datagram64])]) := by
    rw [exec_append]
    rfl
  have hr : received [Op.receive (sinkSocket (List.replicate 33554431 datagram64))]
      = List.replicate 33554431 datagram64 := by
    simp only [received, sinkSocket, List.append_nil]
  have hr1 : received [Op.receive (sinkSocket [datagram64])] = [datagram64] := by
    simp only [received, sinkSocket, List.append_nil]
  have h1 := (exec_fresh_wrap sampleLib 20
    [Op.receive (sinkSocket (List.replicate 33554431 datagram64))]).1
  have h2 := (exec_fresh_wrap sampleLib 20
    ([Op.receive (sinkSocket (List.replicate 33554431 datagram64))]
      ++ [Op.receive (sinkSocket [datagram64])])).1
  rw [hr, totalSize_replicate] at h1
  rw [received_append, hr, hr1, totalSize_append, totalSize_replicate] at h2
  rw [hstep, h1, h2]
  decide

/-! ## The installation loop of `Run` -/

theorem toUInt32_of_nonneg (n : Int) (h0 : 0 ≤ n) (h1 : n ≤ 2147483647) :
    toUInt32 n = n.toNat := by
  unfold toUInt32
  omega

theorem NodeContainerGet_range (N i : Nat) (h : i < N) :
    NodeContainerGet ((List.range N).map Node.mk) i = .ok ⟨i⟩ := by
  simp [NodeContainerGet, List.get?_eq_getElem?, h]

theorem GetAddress_range (lib : Ns3) (N i : Nat) (h : i < N) :
    GetAddress ((List.range N).map lib.Assign) i = .ok (lib.Assign i) := by
  simp [GetAddress, List.get?_eq_getElem?, h]

theorem flow_ok (lib : Ns3) (N : Nat) (w : World) (i : Nat)
    (hc : w.exp.c = (List.range N).map Node.mk)
    (hi : w.exp.interfaces = (List.range N).map lib.Assign)
    (hs : w.exp.nSinks = 10) (h : i + 10 < N) (h32 : N ≤ 2147483648) :
    Experiment.Run.flow w i
      = .ok { w with sockets := w.sockets ++ [sinkOf lib i], apps := w.apps ++ [flowOf lib i] } := by
  have hu : toUInt32 ((i : Int) + 10) = i + 10 := by
    unfold toUInt32
    omega
  unfold Experiment.Run.flow
  rw [hi, GetAddress_range lib N i (by omega), hc, NodeContainerGet_range N i (by omega)]
  simp only [Experiment.SetupPacketReceive, hs, hu, hc]
  rw [NodeContainerGet_range N (i + 10) h]
  rfl

theorem flows_ok (lib : Ns3) (N : Nat) (k : Nat) :
    ∀ (i : Nat) (w : World), w.exp.c = (List.range N).map Node.mk →
      w.exp.interfaces = (List.range N).map lib.Assign → w.exp.nSinks = 10 →
      i + k + 10 ≤ N → N ≤ 2147483648 →
      Experiment.Run.flows k i w
        = .ok { w with sockets := w.sockets ++ (List.range' i k).map (sinkOf lib),
                       apps := w.apps ++ (List.range' i k).map (flowOf lib) } := by
  induction k with
  | zero => intro i w _ _ _ _ _; simp [Experiment.Run.flows]
  | succ k ih =>
    intro i w hc hi hs h h32
    rw [Experiment.Run.flows, flow_ok lib N w i hc hi hs (by omega) h32]
    simp only
    rw [ih (i + 1) { w with sockets := w.sockets ++ [sinkOf lib i],
                            apps := w.apps ++ [flowOf lib i] } hc hi hs (by omega) h32]
    simp [List.range'_succ]

/-! ## The event list -/

theorem filter_orderedInsert_of_false (p : Event → Bool) (a x : Event) (l : List Event)
    (hp : p a = false) (h : l.filter p = [x]) :
    (l.orderedInsert Event.le a).filter p = [x] := by
  have h1 := (List.perm_orderedInsert Event.le a l).filter p
  rw [List.filter_cons_of_neg (by simp [hp]), h] at h1
  exact List.perm_singleton.mp h1

theorem filter_orderedInsert_of_true (p : Event → Bool) (a : Event) (l : List Event)
    (hp : p a = true) (h : l.filter p = []) :
    (l.orderedInsert Event.le a).filter p = [a] := by
  have h1 := (List.perm_orderedInsert Event.le a l).filter p
  rw [List.filter_cons_of_pos hp, h] at h1
  exact List.perm_singleton.mp h1

theorem pendingBytes_orderedInsert (m : Nat) (a : Event) (l : List Event) :
    pendingBytes m (l.orderedInsert Event.le a) = a.bytes m + pendingBytes m l := by
  unfold pendingBytes
  rw [((List.perm_orderedInsert Event.le a l).map (Event.bytes m)).sum_eq]
  simp

theorem pendingCount_orderedInsert (m : Nat) (a : Event) (l : List Event) :
    pendingCount m (l.orderedInsert Event.le a) = a.count m + pendingCount m l := by
  unfold pendingCount
  rw [((List.perm_orderedInsert Event.le a l).map (Event.count m)).sum_eq]
  simp

theorem tickLines_append (a b : List Line) : tickLines (a ++ b) = tickLines a ++ tickLines b := by
  induction a with
  | nil => simp [tickLines]
  | cons x rest ih => cases x <;> simp [tickLines, ih]

theorem tickLines_packets (lib : Ns3) (now : Nat) (s : Socket) (q : List Datagram) :
    tickLines (q.map (fun d => PrintPacketInfo lib now s d.packet d.sender)) = [] := by
  induction q with
  | nil => simp [tickLines]
  | cons d rest ih =>
    simp only [List.map_cons]
    unfold PrintPacketInfo
    split <;> simpa [tickLines, PrintPacketInfo] using ih

/-! ## One event -/

theorem Invoke_Deliver_frame (lib : Ns3) (i : Nat) (d : List Datagram) (w : World) :
    (Simulator.Invoke lib (.Deliver i d) w).sim = w.sim ∧
    tickLines (Simulator.Invoke lib (.Deliver i d) w).out = tickLines w.out ∧
    (Simulator.Invoke lib (.Deliver i d) w).apps = w.apps ∧
    (Simulator.Invoke lib (.Deliver i d) w).nodeSizes = w.nodeSizes ∧
    (Simulator.Invoke lib (.Deliver i d) w).exp.c = w.exp.c ∧
    (Simulator.Invoke lib (.Deliver i d) w).exp.devices = w.exp.devices ∧
    (Simulator.Invoke lib (.Deliver i d) w).exp.interfaces = w.exp.interfaces ∧
    (Simulator.Invoke lib (.Deliver i d) w).exp.nNodes = w.exp.nNodes ∧
    (Simulator.Invoke lib (.Deliver i d) w).exp.nSinks = w.exp.nSinks := by
  unfold Simulator.Invoke
  simp only
  split
  · simp
  · rename_i s hs
    split
    · rw [ReceivePacket_closed lib (s.rxQueue ++ d) w _ rfl]
      simp [tickLines_append, tickLines_packets]
    · simp

theorem set_of_get_some (l : List Socket) :
    ∀ (i : Nat) (x : Socket), l.get? i = some x → l.set i x = l := by
  induction l with
  | nil => intro i x h; simp
  | cons y rest ih =>
    intro i x h
    cases i with
    | zero => simp at h; simp [h]
    | succ j => simp at h; simp [ih j x (by simpa using h)]

theorem Invoke_Deliver_clean (lib : Ns3) (i : Nat) (d : List Datagram) (w : World)
    (hclean : ∀ s ∈ w.sockets, s.recvCallback = true ∧ s.rxQueue = []) :
    (Simulator.Invoke lib (.Deliver i d) w).sockets = w.sockets ∧
    (((Simulator.Invoke lib (.Deliver i d) w).exp.totalBytes = w.exp.totalBytes ∧
      (Simulator.Invoke lib (.Deliver i d) w).exp.totalPackets = w.exp.totalPackets) ∨
     ((Simulator.Invoke lib (.Deliver i d) w).exp.totalBytes = bytesAfter w.exp.totalBytes d ∧
      (Simulator.Invoke lib (.Deliver i d) w).exp.totalPackets
        = packetsAfter w.exp.totalPackets d)) := by
  unfold Simulator.Invoke
  simp only
  split
  · simp
  · rename_i s hs
    have hmem : s ∈ w.sockets := List.get?_mem hs
    obtain ⟨hcb, hq⟩ := hclean s hmem
    rw [if_pos hcb, ReceivePacket_closed lib (s.rxQueue ++ d) w _ rfl]
    simp only [hq, List.nil_append]
    have hs1 : { s with rxQueue := [] } = s := by
      cases s
      simp_all
    refine ⟨?_, Or.inr ⟨trivial, trivial⟩⟩
    show w.sockets.set i { s with rxQueue := [] } = w.sockets
    rw [hs1]
    exact set_of_get_some w.sockets i s hs

theorem loop_stopped (lib : Ns3) (fuel : Nat) (w : World) (h : w.sim.stop = true) :
    Simulator.loop lib fuel w = .ok w := by
  cases fuel <;> simp [Simulator.loop, h]

theorem loop_step (lib : Ns3) (fuel : Nat) (w : World) (e : Event) (rest : List Event)
    (he : w.sim.events = e :: rest) (h : w.sim.stop = false) :
    Simulator.loop lib (fuel + 1) w
      = Simulator.loop lib fuel
          (Simulator.Invoke lib e.impl
            { w with sim := { w.sim with events := rest, now := e.ts } }) := by
  simp [Simulator.loop, Simulator.ProcessOneEvent, he, h]

theorem Seconds_succ (k : Nat) : Seconds k + Seconds 1 = Seconds (k + 1) := by
  unfold Seconds
  omega

theorem tickTimes_append_tick (out : List Line) (t : Nat) (p b : Int) :
    tickTimes (out ++ [Line.tick t p b]) = tickTimes out ++ [t] := by
  simp [tickTimes, tickLines_append, tickLines]

/-! ## The engine loop -/

theorem loop_ticks (lib : Ns3) :
    ∀ (fuel k uT uS : Nat) (w : World), Pending k uT uS w →
      w.sim.events.length + (200 - k) ≤ fuel →
      ∃ w1, Simulator.loop lib fuel w = .ok w1 ∧
        tickTimes w1.out = (List.range 200).map Seconds := by
  intro fuel
  induction fuel with
  | zero =>
    intro k uT uS w hP hf
    have h1 := hP.tick
    have h2 : w.sim.events = [] := List.length_eq_zero.mp (by omega)
    rw [h2] at h1
    simp at h1
  | succ fuel ih =>
    intro k uT uS w hP hf
    cases hev : w.sim.events with
    | nil =>
      have h1 := hP.tick
      rw [hev] at h1
      simp at h1
    | cons e rest =>
      rw [loop_step lib fuel w e rest hev hP.running]
      have hsorted := hP.sorted
      have htick := hP.tick
      have hhalt := hP.halt
      rw [hev] at hsorted htick hhalt hf
      obtain ⟨hle, hsrest⟩ := List.sorted_cons.mp hsorted
      obtain ⟨ts, uid, impl⟩ := e
      cases impl with
      | CheckTransferredData =>
        rw [List.filter_cons_of_pos (by rfl)] at htick
        rw [List.filter_cons_of_neg (by simp [Event.isStop])] at hhalt
        simp only [List.cons.injEq, Event.mk.injEq, and_true] at htick
        obtain ⟨⟨hts, huid⟩, hrest⟩ := htick
        have hmem : (⟨Seconds 200, uS, .Stop⟩ : Event) ∈ rest := by
          have : (⟨Seconds 200, uS, .Stop⟩ : Event) ∈ rest.filter Event.isStop := by
            rw [hhalt]; simp
          exact List.mem_of_mem_filter this
        have hlt : k < 200 := by
          have h3 := hle _ hmem
          have h4 := hP.order
          have h5 := hP.range
          unfold Event.le at h3
          simp only [hts, huid] at h3
          unfold Seconds at h3
          omega
        apply ih (k + 1) w.sim.uid uS
        · constructor
          · exact hP.running
          · simp only [Experiment.CheckTransferredData, Simulator.Schedule, Simulator.Invoke]
            exact List.Sorted.orderedInsert _ _ hsrest
          · simp only [Experiment.CheckTransferredData, Simulator.Schedule, Simulator.Invoke]
            rw [hts, Seconds_succ]
            exact filter_orderedInsert_of_true _ _ _ (by rfl) hrest
          · simp only [Experiment.CheckTransferredData, Simulator.Schedule, Simulator.Invoke]
            exact filter_orderedInsert_of_false _ _ _ _ (by rfl) hhalt
          · have := hP.fresh
            simp only [Experiment.CheckTransferredData, Simulator.Schedule, Simulator.Invoke]
            omega
          · intro _
            exact hP.fresh
          · omega
          · simp only [Experiment.CheckTransferredData, Simulator.Invoke]
            rw [tickTimes_append_tick, hP.printed, hts, List.range_succ]
            simp
        · simp only [Experiment.CheckTransferredData, Simulator.Invoke, Simulator.Schedule,
            List.orderedInsert_length]
          simp only [List.length_cons] at hf
          omega
      | Stop =>
        rw [List.filter_cons_of_neg (by simp [Event.isTick])] at htick
        rw [List.filter_cons_of_pos (by rfl)] at hhalt
        simp only [List.cons.injEq, Event.mk.injEq, and_true] at hhalt
        obtain ⟨⟨hts, huid⟩, hrest⟩ := hhalt
        have hmem : (⟨Seconds k, uT, .CheckTransferredData⟩ : Event) ∈ rest := by
          have : (⟨Seconds k, uT, .CheckTransferredData⟩ : Event) ∈ rest.filter Event.isTick := by
            rw [htick]; simp
          exact List.mem_of_mem_filter this
        have hk : k = 200 := by
          have h3 := hle _ hmem
          have h5 := hP.range
          unfold Event.le at h3
          simp only [hts, huid] at h3
          unfold Seconds at h3
          omega
        refine ⟨_, loop_stopped lib fuel _ (by simp [Simulator.Invoke]), ?_⟩
        simp only [Simulator.Invoke]
        rw [hP.printed, hk]
      | Deliver i d =>
        rw [List.filter_cons_of_neg (by simp [Event.isTick])] at htick
        rw [List.filter_cons_of_neg (by simp [Event.isStop])] at hhalt
        have hfr := Invoke_Deliver_frame lib i d
          { w with sim := { w.sim with events := rest, now := ts } }
        apply ih k uT uS
        · constructor
          · rw [hfr.1]; exact hP.running
          · rw [hfr.1]; exact hsrest
          · rw [hfr.1]; exact htick
          · rw [hfr.1]; exact hhalt
          · rw [hfr.1]; exact hP.fresh
          · exact hP.order
          · exact hP.range
          · unfold tickTimes
            rw [hfr.2.1]
            exact hP.printed
        · rw [hfr.1]
          simp only [List.length_cons] at hf
          simp only
          omega

theorem loop_invariant (lib : Ns3) (I : World → Prop)
    (hI : ∀ w, I w → I (Simulator.ProcessOneEvent lib w)) :
    ∀ (fuel : Nat) (w : World), I w → I (Simulator.loop lib fuel w).world := by
  intro fuel
  induction fuel with
  | zero =>
    intro w hw
    unfold Simulator.loop
    split <;> exact hw
  | succ fuel ih =>
    intro w hw
    unfold Simulator.loop
    split
    · exact hw
    · exact ih _ (hI w hw)

theorem loop_invariant_running (lib : Ns3) (I : World → Prop)
    (hI : ∀ w, I w → w.sim.stop = false → I (Simulator.ProcessOneEvent lib w)) :
    ∀ (fuel : Nat) (w : World), I w → I (Simulator.loop lib fuel w).world := by
  intro fuel
  induction fuel with
  | zero =>
    intro w hw
    unfold Simulator.loop
    split <;> exact hw
  | succ fuel ih =>
    intro w hw
    unfold Simulator.loop
    split
    · exact hw
    · rename_i hc
      refine ih _ (hI w hw ?_)
      cases hs : w.sim.stop with
      | false => rfl
      | true => simp [hs] at hc

theorem ProcessOneEvent_frame (lib : Ns3) (w0 w : World) (h : Frame w0 w) :
    Frame w0 (Simulator.ProcessOneEvent lib w) := by
  unfold Simulator.ProcessOneEvent
  split
  · exact h
  · rename_i e rest hev
    obtain ⟨ts, uid, impl⟩ := e
    cases impl with
    | CheckTransferredData =>
      exact ⟨h.c, h.devices, h.interfaces, h.nNodes, h.nSinks, h.apps, h.nodeSizes, h.sockets,
        h.clean⟩
    | Stop =>
      exact ⟨h.c, h.devices, h.interfaces, h.nNodes, h.nSinks, h.apps, h.nodeSizes, h.sockets,
        h.clean⟩
    | Deliver i d =>
      have hfr := Invoke_Deliver_frame lib i d
        { w with sim := { w.sim with events := rest, now := ts } }
      have hcl := Invoke_Deliver_clean lib i d
        { w with sim := { w.sim with events := rest, now := ts } }
        (by intro s hs; exact h.clean s (by rw [← h.sockets]; exact hs))
      obtain ⟨_, _, h3, h4, h5, h6, h7, h8, h9⟩ := hfr
      exact ⟨h5.trans h.c, h6.trans h.devices, h7.trans h.interfaces, h8.trans h.nNodes,
        h9.trans h.nSinks, h3.trans h.apps, h4.trans h.nodeSizes, hcl.1.trans h.sockets, h.clean⟩

theorem pendingBytes_cons (m : Nat) (e : Event) (rest : List Event) :
    pendingBytes m (e :: rest) = e.bytes m + pendingBytes m rest := by
  simp [pendingBytes]

theorem pendingCount_cons (m : Nat) (e : Event) (rest : List Event) :
    pendingCount m (e :: rest) = e.count m + pendingCount m rest := by
  simp [pendingCount]

theorem Invoke_Deliver_none (lib : Ns3) (i : Nat) (d : List Datagram) (w : World)
    (h : w.sockets.length ≤ i) : Simulator.Invoke lib (.Deliver i d) w = w := by
  unfold Simulator.Invoke
  simp only
  have hn : w.sockets.get? i = none := List.get?_eq_none.mpr h
  rw [hn]

theorem Invoke_Deliver_bounded (lib : Ns3) (i : Nat) (d : List Datagram) (w : World)
    (B C : Nat) (hclean : ∀ s ∈ w.sockets, s.recvCallback = true ∧ s.rxQueue = [])
    (hb0 : 0 ≤ w.exp.totalBytes)
    (hb : w.exp.totalBytes + ((totalSize d + B : Nat) : Int) ≤ 2147483647)
    (hp0 : 0 ≤ w.exp.totalPackets)
    (hp : w.exp.totalPackets + ((d.length + C : Nat) : Int) ≤ 2147483647)
    (hprinted : (tickLines w.out).Pairwise (fun a b => a.2.1 ≤ b.2.1 ∧ a.2.2 ≤ b.2.2))
    (hlast : ∀ x ∈ tickLines w.out, x.2.1 ≤ w.exp.totalPackets ∧ x.2.2 ≤ w.exp.totalBytes) :
    (∀ s ∈ (Simulator.Invoke lib (.Deliver i d) w).sockets,
      s.recvCallback = true ∧ s.rxQueue = []) ∧
    0 ≤ (Simulator.Invoke lib (.Deliver i d) w).exp.totalBytes ∧
    (Simulator.Invoke lib (.Deliver i d) w).exp.totalBytes + (B : Int) ≤ 2147483647 ∧
    0 ≤ (Simulator.Invoke lib (.Deliver i d) w).exp.totalPackets ∧
    (Simulator.Invoke lib (.Deliver i d) w).exp.totalPackets + (C : Int) ≤ 2147483647 ∧
    (tickLines (Simulator.Invoke lib (.Deliver i d) w).out).Pairwise
      (fun a b => a.2.1 ≤ b.2.1 ∧ a.2.2 ≤ b.2.2) ∧
    (∀ x ∈ tickLines (Simulator.Invoke lib (.Deliver i d) w).out,
      x.2.1 ≤ (Simulator.Invoke lib (.Deliver i d) w).exp.totalPackets ∧
      x.2.2 ≤ (Simulator.Invoke lib (.Deliver i d) w).exp.totalBytes) := by
  have hfr := Invoke_Deliver_frame lib i d w
  have hcl := Invoke_Deliver_clean lib i d w hclean
  have hbe := bytesAfter_exact d w.exp.totalBytes (by omega) (by omega)
  have hpe := packetsAfter_exact d w.exp.totalPackets (by omega) (by omega)
  generalize Simulator.Invoke lib (.Deliver i d) w = w1 at hfr hcl ⊢
  obtain ⟨hs, hc⟩ := hcl
  have hmono : w.exp.totalBytes ≤ w1.exp.totalBytes ∧
      w1.exp.totalBytes ≤ w.exp.totalBytes + totalSize d ∧
      w.exp.totalPackets ≤ w1.exp.totalPackets ∧
      w1.exp.totalPackets ≤ w.exp.totalPackets + d.length := by
    rcases hc with ⟨h1, h2⟩ | ⟨h1, h2⟩
    · rw [h1, h2]
      omega
    · rw [h1, h2, hbe, hpe]
      omega
  obtain ⟨m1, m2, m3, m4⟩ := hmono
  refine ⟨?_, by omega, by omega, by omega, by omega, ?_, ?_⟩
  · rw [hs]
    exact hclean
  · rw [hfr.2.1]
    exact hprinted
  · rw [hfr.2.1]
    intro x hx
    have := hlast x hx
    constructor <;> omega

theorem ProcessOneEvent_bounded (lib : Ns3) (uS : Nat) (w : World) (h : Bounded uS w)
    (hrun : w.sim.stop = false) : Bounded uS (Simulator.ProcessOneEvent lib w) := by
  unfold Simulator.ProcessOneEvent
  split
  · exact h
  · rename_i e rest hev
    have hb := h.bytes
    have hp := h.packets
    have hb0 := h.bytes0
    have hp0 := h.packets0
    have hsorted := h.sorted
    have hhalt := h.halt hrun
    have hlate := h.late
    rw [hev, pendingBytes_cons] at hb
    rw [hev, pendingCount_cons] at hp
    rw [hev] at hsorted hhalt hlate
    obtain ⟨hle, hsrest⟩ := List.sorted_cons.mp hsorted
    have hlate_rest : ∀ x ∈ rest, ∀ i d, x.impl = .Deliver i d → Seconds 200 ≤ x.ts →
        uS < x.uid := fun x hx => hlate x (List.mem_cons_of_mem _ hx)
    obtain ⟨ts, uid, impl⟩ := e
    cases impl with
    | CheckTransferredData =>
      have hmem : (⟨Seconds 200, uS, .Stop⟩ : Event) ∈ rest := by
        rcases List.mem_cons.mp hhalt with h1 | h1
        · simp at h1
        · exact h1
      refine ⟨?_, ?_, ?_, h.clean, h.bytes0, ?_, h.packets0, ?_, ?_, ?_⟩
      · simp only [Simulator.Invoke, Experiment.CheckTransferredData, Simulator.Schedule]
        exact List.Sorted.orderedInsert _ _ hsrest
      · intro _
        simp only [Simulator.Invoke, Experiment.CheckTransferredData, Simulator.Schedule]
        exact (List.mem_orderedInsert Event.le).mpr (Or.inr hmem)
      · intro x hx i d hi ht
        simp only [Simulator.Invoke, Experiment.CheckTransferredData, Simulator.Schedule] at hx
        rcases (List.mem_orderedInsert Event.le).mp hx with h1 | h1
        · subst h1
          simp at hi
        · exact hlate_rest x h1 i d hi ht
      · simp only [Simulator.Invoke, Experiment.CheckTransferredData, Simulator.Schedule]
        rw [pendingBytes_orderedInsert]
        simp only [Event.bytes] at hb ⊢
        omega
      · simp only [Simulator.Invoke, Experiment.CheckTransferredData, Simulator.Schedule]
        rw [pendingCount_orderedInsert]
        simp only [Event.count] at hp ⊢
        omega
      · simp only [Simulator.Invoke, Experiment.CheckTransferredData, tickLines_append,
          tickLines]
        rw [List.pairwise_append]
        refine ⟨h.printed, by simp, ?_⟩
        intro a ha b hb1
        simp only [List.mem_singleton] at hb1
        subst hb1
        exact h.last a ha
      · simp only [Simulator.Invoke, Experiment.CheckTransferredData, tickLines_append,
          tickLines]
        intro x hx
        simp only [List.mem_append, List.mem_singleton] at hx
        rcases hx with hx | hx
        · exact h.last x hx
        · subst hx
          exact ⟨le_refl _, le_refl _⟩
    | Stop =>
      refine ⟨hsrest, ?_, hlate_rest, h.clean, h.bytes0, ?_, h.packets0, ?_, h.printed, h.last⟩
      · intro hf
        simp [Simulator.Invoke] at hf
      · simp only [Simulator.Invoke, Event.bytes] at hb ⊢
        omega
      · simp only [Simulator.Invoke, Event.count] at hp ⊢
        omega
    | Deliver i d =>
      have hmem : (⟨Seconds 200, uS, .Stop⟩ : Event) ∈ rest := by
        rcases List.mem_cons.mp hhalt with h1 | h1
        · simp at h1
        · exact h1
      have hts : ts < Seconds 200 := by
        by_contra hge
        have h1 : uS < uid :=
          hlate ⟨ts, uid, .Deliver i d⟩ (List.mem_cons_self _ _) i d rfl (Nat.le_of_not_lt hge)
        have h2 : ts < Seconds 200 ∨ (ts = Seconds 200 ∧ uid ≤ uS) := hle _ hmem
        omega
      have hfr := Invoke_Deliver_frame lib i d
        { w with sim := { w.sim with events := rest, now := ts } }
      have hcl := Invoke_Deliver_clean lib i d
        { w with sim := { w.sim with events := rest, now := ts } } h.clean
      have hsock : (Simulator.Invoke lib (.Deliver i d)
          { w with sim := { w.sim with events := rest, now := ts } }).sockets = w.sockets :=
        hcl.1
      have hsim : (Simulator.Invoke lib (.Deliver i d)
          { w with sim := { w.sim with events := rest, now := ts } }).sim
          = { w.sim with events := rest, now := ts } := hfr.1
      by_cases hi : i < w.sockets.length
      · have hbytes : Event.bytes w.sockets.length ⟨ts, uid, .Deliver i d⟩ = totalSize d := by
          simp [Event.bytes, hts, hi]
        have hcount : Event.count w.sockets.length ⟨ts, uid, .Deliver i d⟩ = d.length := by
          simp [Event.count, hts, hi]
        rw [hbytes] at hb
        rw [hcount] at hp
        have hbd := Invoke_Deliver_bounded lib i d
          { w with sim := { w.sim with events := rest, now := ts } }
          (pendingBytes w.sockets.length rest) (pendingCount w.sockets.length rest)
          h.clean hb0 hb hp0 hp h.printed h.last
        obtain ⟨b1, b2, b3, b4, b5, b6, b7⟩ := hbd
        refine ⟨?_, ?_, ?_, b1, b2, ?_, b4, ?_, b6, b7⟩
        · rw [hsim]
          exact hsrest
        · intro _
          rw [hsim]
          exact hmem
        · rw [hsim]
          exact hlate_rest
        · rw [hsock, hsim]
          exact b3
        · rw [hsock, hsim]
          exact b5
      · have hnone := Invoke_Deliver_none lib i d
          { w with sim := { w.sim with events := rest, now := ts } } (by simpa using hi)
        have hbytes : Event.bytes w.sockets.length ⟨ts, uid, .Deliver i d⟩ = 0 := by
          simp [Event.bytes, hi]
        have hcount : Event.count w.sockets.length ⟨ts, uid, .Deliver i d⟩ = 0 := by
          simp [Event.count, hi]
        rw [hbytes] at hb
        rw [hcount] at hp
        rw [hnone]
        refine ⟨hsrest, fun _ => hmem, hlate_rest, h.clean, h.bytes0, ?_, h.packets0, ?_,
          h.printed, h.last⟩
        · show w.exp.totalBytes + ((pendingBytes w.sockets.length rest : Nat) : Int) ≤ _
          omega
        · show w.exp.totalPackets + ((pendingCount w.sockets.length rest : Nat) : Int) ≤ _
          omega

/-! ## `Run` as a whole -/

theorem scheduleArrivals_spec (arrivals : List Arrival) :
    ∀ (s : Simulator) (x y : Event), s.events.Sorted Event.le →
      s.events.filter Event.isTick = [x] → s.events.filter Event.isStop = [y] →
      (scheduleArrivals arrivals s).now = s.now ∧
      (scheduleArrivals arrivals s).stop = s.stop ∧
      s.uid ≤ (scheduleArrivals arrivals s).uid ∧
      (scheduleArrivals arrivals s).events.Sorted Event.le ∧
      (scheduleArrivals arrivals s).events.filter Event.isTick = [x] ∧
      (scheduleArrivals arrivals s).events.filter Event.isStop = [y] ∧
      (scheduleArrivals arrivals s).events.length = s.events.length + arrivals.length := by
  induction arrivals with
  | nil =>
    intro s x y hs ht hh
    simp [scheduleArrivals, hs, ht, hh]
  | cons a rest ih =>
    intro s x y hs ht hh
    have hstep : scheduleArrivals (a :: rest) s
        = scheduleArrivals rest (s.Schedule a.delay (.Deliver a.socket a.datagrams)) := by
      simp [scheduleArrivals]
    have h1 := ih (s.Schedule a.delay (.Deliver a.socket a.datagrams)) x y
      (List.Sorted.orderedInsert _ _ hs)
      (filter_orderedInsert_of_false _ _ _ _ (by rfl) ht)
      (filter_orderedInsert_of_false _ _ _ _ (by rfl) hh)
    rw [hstep]
    obtain ⟨h2, h3, h4, h5, h6, h7, h8⟩ := h1
    refine ⟨h2, h3, ?_, h5, h6, h7, ?_⟩
    · have hu : (s.Schedule a.delay (.Deliver a.socket a.datagrams)).uid = s.uid + 1 := rfl
      omega
    · rw [h8]
      simp only [Simulator.Schedule, List.orderedInsert_length, List.length_cons]
      omega

theorem scheduleArrivals_due (m : Nat) (arrivals : List Arrival) :
    ∀ s : Simulator,
      (∀ e ∈ (scheduleArrivals arrivals s).events, e ∈ s.events ∨ s.uid ≤ e.uid) ∧
      pendingBytes m (scheduleArrivals arrivals s).events
        = pendingBytes m s.events
          + (arrivals.map (fun a => if s.now + a.delay < Seconds 200 ∧ a.socket < m
              then totalSize a.datagrams else 0)).sum ∧
      pendingCount m (scheduleArrivals arrivals s).events
        = pendingCount m s.events
          + (arrivals.map (fun a => if s.now + a.delay < Seconds 200 ∧ a.socket < m
              then a.datagrams.length else 0)).sum := by
  induction arrivals with
  | nil =>
    intro s
    exact ⟨fun e he => Or.inl he, by simp [scheduleArrivals], by simp [scheduleArrivals]⟩
  | cons a rest ih =>
    intro s
    have hstep : scheduleArrivals (a :: rest) s
        = scheduleArrivals rest (s.Schedule a.delay (.Deliver a.socket a.datagrams)) := by
      simp [scheduleArrivals]
    have hnow : (s.Schedule a.delay (.Deliver a.socket a.datagrams)).now = s.now := rfl
    have huid : (s.Schedule a.delay (.Deliver a.socket a.datagrams)).uid = s.uid + 1 := rfl
    have hev : (s.Schedule a.delay (.Deliver a.socket a.datagrams)).events
        = s.events.orderedInsert Event.le
            ⟨s.now + a.delay, s.uid, .Deliver a.socket a.datagrams⟩ := rfl
    obtain ⟨h1, h2, h3⟩ := ih (s.Schedule a.delay (.Deliver a.socket a.datagrams))
    rw [hstep]
    refine ⟨?_, ?_, ?_⟩
    · intro e he
      rcases h1 e he with h4 | h4
      · rw [hev] at h4
        rcases (List.mem_orderedInsert Event.le).mp h4 with h5 | h5
        · right
          rw [h5]
        · left
          exact h5
      · right
        omega
    · rw [h2, hnow, hev, pendingBytes_orderedInsert]
      simp only [Event.bytes, List.map_cons, List.sum_cons]
      omega
    · rw [h3, hnow, hev, pendingCount_orderedInsert]
      simp only [Event.count, List.map_cons, List.sum_cons]
      omega

theorem arrivalBytes_delivered (arrivals : List Arrival) :
    arrivalBytes (delivered arrivals)
      = (arrivals.map (fun a => if 0 + a.delay < Seconds 200 ∧ a.socket < 10
          then totalSize a.datagrams else 0)).sum := by
  induction arrivals with
  | nil => simp [arrivalBytes, delivered]
  | cons a rest ih =>
    have ih1 : (List.map (fun a => totalSize a.datagrams) (delivered rest)).sum
        = (rest.map (fun a => if 0 + a.delay < Seconds 200 ∧ a.socket < 10
          then totalSize a.datagrams else 0)).sum := ih
    by_cases hc : a.delay < Seconds 200 ∧ a.socket < 10
    · have hd : delivered (a :: rest) = a :: delivered rest := by
        simp [delivered, hc.1, hc.2]
      simp only [arrivalBytes, hd, List.map_cons, List.sum_cons, ih1, Nat.zero_add, hc,
        and_self, if_true]
    · have hd : delivered (a :: rest) = delivered rest := by
        simp only [delivered]
        rw [List.filter_cons_of_neg]
        simpa using hc
      simp only [arrivalBytes, hd, List.map_cons, List.sum_cons, ih1, Nat.zero_add, hc,
        if_false]

theorem arrivalCount_delivered (arrivals : List Arrival) :
    arrivalCount (delivered arrivals)
      = (arrivals.map (fun a => if 0 + a.delay < Seconds 200 ∧ a.socket < 10
          then a.datagrams.length else 0)).sum := by
  induction arrivals with
  | nil => simp [arrivalCount, delivered]
  | cons a rest ih =>
    have ih1 : (List.map (fun a => a.datagrams.length) (delivered rest)).sum
        = (rest.map (fun a => if 0 + a.delay < Seconds 200 ∧ a.socket < 10
          then a.datagrams.length else 0)).sum := ih
    by_cases hc : a.delay < Seconds 200 ∧ a.socket < 10
    · have hd : delivered (a :: rest) = a :: delivered rest := by
        simp [delivered, hc.1, hc.2]
      simp only [arrivalCount, hd, List.map_cons, List.sum_cons, ih1, Nat.zero_add, hc,
        and_self, if_true]
    · have hd : delivered (a :: rest) = delivered rest := by
        simp only [delivered]
        rw [List.filter_cons_of_neg]
        simpa using hc
      simp only [arrivalCount, hd, List.map_cons, List.sum_cons, ih1, Nat.zero_add, hc,
        if_false]

theorem fresh_containers (lib : Ns3) (n : Int) (h0 : 0 ≤ n) (h1 : n ≤ 2147483647) :
    (Experiment.Experiment lib n).exp.c = (List.range n.toNat).map Node.mk ∧
    (Experiment.Experiment lib n).exp.interfaces = (List.range n.toNat).map lib.Assign := by
  simp [Experiment.Experiment, toUInt32_of_nonneg n h0 h1]

theorem initialEvents :
    List.orderedInsert Event.le (⟨0 + Seconds 200, 0 + 1, .Stop⟩ : Event)
      (List.orderedInsert Event.le (⟨0 + Seconds 1, 0, .CheckTransferredData⟩ : Event) [])
      = [⟨Seconds 1, 0, .CheckTransferredData⟩, ⟨Seconds 200, 1, .Stop⟩] := by
  decide

theorem Run_unfold (lib : Ns3) (n : Int) (arrivals : List Arrival) (fuel : Nat)
    (hn : 20 ≤ n) (hn1 : n ≤ 2147483647) :
    Experiment.Run lib arrivals fuel (Experiment.Experiment lib n)
      = match Simulator.loop lib fuel (startWorld lib n arrivals) with
        | .error e => .error e
        | .ok w => .ok (Simulator.Destroy w) := by
  have hc := fresh_containers lib n (by omega) hn1
  have hfl := flows_ok lib n.toNat 10 0 (Experiment.Run.nodeSizes (Experiment.Experiment lib n))
    hc.1 hc.2 rfl (by omega) (by omega)
  have h10 : (Experiment.Run.nodeSizes (Experiment.Experiment lib n)).exp.nSinks.toNat = 10 := rfl
  unfold Experiment.Run
  simp only [h10]
  rw [hfl]
  simp only [Simulator.Run]
  have hw : Simulator.loop lib fuel (startWorld lib n arrivals) = Simulator.loop lib fuel
      { exp := (Experiment.Experiment lib n).exp,
        sim := { startSim arrivals with stop := false },
        sockets := (List.range 10).map (sinkOf lib),
        apps := (List.range 10).map (flowOf lib),
        nodeSizes := (List.range n.toNat).map (fun i => (i, 15, 15)),
        out := [Line.tick 0 0 0] } := rfl
  rw [hw]
  simp only [Experiment.Run.nodeSizes, Experiment.CheckTransferredData, Simulator.Stop,
    Simulator.Schedule, Experiment.Experiment, List.nil_append]
  rw [initialEvents]
  simp only [toUInt32_of_nonneg n (by omega) hn1, List.length_map, List.length_range,
    List.range_eq_range', startSim, List.length_range', Nat.zero_add, Nat.reduceAdd]

theorem startSim_spec (arrivals : List Arrival) :
    (startSim arrivals).events.Sorted Event.le ∧
    (startSim arrivals).events.filter Event.isTick = [⟨Seconds 1, 0, .CheckTransferredData⟩] ∧
    (startSim arrivals).events.filter Event.isStop = [⟨Seconds 200, 1, .Stop⟩] ∧
    2 ≤ (startSim arrivals).uid ∧
    (startSim arrivals).events.length = 2 + arrivals.length := by
  have h := scheduleArrivals_spec arrivals
    { now := 0, uid := 2,
      events := [⟨Seconds 1, 0, .CheckTransferredData⟩, ⟨Seconds 200, 1, .Stop⟩],
      stop := false }
    ⟨Seconds 1, 0, .CheckTransferredData⟩ ⟨Seconds 200, 1, .Stop⟩
    (by decide) (by decide) (by decide)
  obtain ⟨_, _, h3, h4, h5, h6, h7⟩ := h
  exact ⟨h4, h5, h6, h3, h7⟩

theorem startSim_due (arrivals : List Arrival) :
    (⟨Seconds 200, 1, .Stop⟩ : Event) ∈ (startSim arrivals).events ∧
    (∀ e ∈ (startSim arrivals).events, ∀ i d, e.impl = .Deliver i d → 1 < e.uid) ∧
    pendingBytes 10 (startSim arrivals).events = arrivalBytes (delivered arrivals) ∧
    pendingCount 10 (startSim arrivals).events = arrivalCount (delivered arrivals) := by
  obtain ⟨_, _, h3, _, _⟩ := startSim_spec arrivals
  obtain ⟨d1, d2, d3⟩ := scheduleArrivals_due 10 arrivals
    { now := 0, uid := 2,
      events := [⟨Seconds 1, 0, .CheckTransferredData⟩, ⟨Seconds 200, 1, .Stop⟩],
      stop := false }
  refine ⟨?_, ?_, ?_, ?_⟩
  · have : (⟨Seconds 200, 1, .Stop⟩ : Event) ∈ (startSim arrivals).events.filter Event.isStop := by
      rw [h3]
      simp
    exact List.mem_of_mem_filter this
  · intro e he i d hi
    rcases d1 e he with h1 | h1
    · simp only [List.mem_cons, List.mem_singleton, List.not_mem_nil, or_false] at h1
      rcases h1 with h1 | h1 <;> rw [h1] at hi <;> simp at hi
    · simp only at h1
      omega
  · rw [startSim, d2, arrivalBytes_delivered]
    simp [pendingBytes, Event.bytes]
  · rw [startSim, d3, arrivalCount_delivered]
    simp [pendingCount, Event.count]

theorem startWorld_pending (lib : Ns3) (n : Int) (arrivals : List Arrival) :
    Pending 1 0 1 (startWorld lib n arrivals) := by
  obtain ⟨h1, h2, h3, h4, _⟩ := startSim_spec arrivals
  have hp : tickTimes (startWorld lib n arrivals).out = (List.range 1).map Seconds := by
    show tickTimes [Line.tick 0 0 0] = (List.range 1).map Seconds
    decide
  exact ⟨rfl, h1, h2, h3, h4, by omega, by omega, hp⟩

theorem startWorld_clean (lib : Ns3) (n : Int) (arrivals : List Arrival) :
    ∀ s ∈ (startWorld lib n arrivals).sockets, s.recvCallback = true ∧ s.rxQueue = [] := by
  intro s hs
  simp only [startWorld, List.mem_map] at hs
  obtain ⟨i, _, hi⟩ := hs
  rw [← hi]
  exact ⟨rfl, rfl⟩

theorem startWorld_frame (lib : Ns3) (n : Int) (arrivals : List Arrival) :
    Frame (startWorld lib n arrivals) (startWorld lib n arrivals) :=
  ⟨rfl, rfl, rfl, rfl, rfl, rfl, rfl, rfl, startWorld_clean lib n arrivals⟩

theorem startWorld_bounded (lib : Ns3) (n : Int) (arrivals : List Arrival)
    (hbytes : (arrivalBytes (delivered arrivals) : Int) ≤ 2147483647)
    (hcount : (arrivalCount (delivered arrivals) : Int) ≤ 2147483647) :
    Bounded 1 (startWorld lib n arrivals) := by
  obtain ⟨s1, _, _, _, _⟩ := startSim_spec arrivals
  obtain ⟨d1, d2, d3, d4⟩ := startSim_due arrivals
  have hlen : (startWorld lib n arrivals).sockets.length = 10 := by
    simp [startWorld]
  refine ⟨s1, fun _ => d1, fun e he i d hi _ => d2 e he i d hi,
    startWorld_clean lib n arrivals, ?_, ?_, ?_, ?_, ?_, ?_⟩
  · simp [startWorld, Experiment.Experiment]
  · rw [hlen]
    show (startWorld lib n arrivals).exp.totalBytes
      + ((pendingBytes 10 (startSim arrivals).events : Nat) : Int) ≤ 2147483647
    rw [d3]
    simp only [startWorld, Experiment.Experiment]
    omega
  · simp [startWorld, Experiment.Experiment]
  · rw [hlen]
    show (startWorld lib n arrivals).exp.totalPackets
      + ((pendingCount 10 (startSim arrivals).events : Nat) : Int) ≤ 2147483647
    rw [d4]
    simp only [startWorld, Experiment.Experiment]
    omega
  · simp [startWorld, tickLines]
  · simp [startWorld, tickLines, Experiment.Experiment]

theorem loop_error (lib : Ns3) :
    ∀ (fuel : Nat) (w : World) (e : Error) (w1 : World),
      Simulator.loop lib fuel w = .error (e, w1) → e = .outOfFuel := by
  intro fuel
  induction fuel with
  | zero =>
    intro w e w1 h
    unfold Simulator.loop at h
    split at h
    · simp at h
    · simp only [Except.error.injEq, Prod.mk.injEq] at h
      exact h.1.symm
  | succ fuel ih =>
    intro w e w1 h
    unfold Simulator.loop at h
    split at h
    · simp at h
    · exact ih _ e w1 h

theorem Run_world (lib : Ns3) (n : Int) (arrivals : List Arrival) (fuel : Nat)
    (hn : 20 ≤ n) (hn1 : n ≤ 2147483647) :
    (Experiment.Run lib arrivals fuel (Experiment.Experiment lib n)).world
        = Simulator.Destroy (Simulator.loop lib fuel (startWorld lib n arrivals)).world ∨
    (Experiment.Run lib arrivals fuel (Experiment.Experiment lib n)).world
        = (Simulator.loop lib fuel (startWorld lib n arrivals)).world := by
  rw [Run_unfold lib n arrivals fuel hn hn1]
  cases h : Simulator.loop lib fuel (startWorld lib n arrivals) with
  | error e => right; obtain ⟨e1, w1⟩ := e; rfl
  | ok w => left; rfl

theorem Run_frame (lib : Ns3) (n : Int) (arrivals : List Arrival) (fuel : Nat)
    (hn : 20 ≤ n) (hn1 : n ≤ 2147483647) :
    Frame (startWorld lib n arrivals)
      (Experiment.Run lib arrivals fuel (Experiment.Experiment lib n)).world := by
  have h := loop_invariant lib (Frame (startWorld lib n arrivals))
    (ProcessOneEvent_frame lib _) fuel _ (startWorld_frame lib n arrivals)
  rcases Run_world lib n arrivals fuel hn hn1 with h1 | h1
  · rw [h1]
    exact ⟨h.c, h.devices, h.interfaces, h.nNodes, h.nSinks, h.apps, h.nodeSizes, h.sockets,
      h.clean⟩
  · rw [h1]
    exact h

theorem Run_no_index_error (lib : Ns3) (n : Int) (arrivals : List Arrival) (fuel : Nat)
    (hn : 20 ≤ n) (hn1 : n ≤ 2147483647) (w1 : World) :
    Experiment.Run lib arrivals fuel (Experiment.Experiment lib n)
      ≠ .error (.indexOutOfRange, w1) := by
  rw [Run_unfold lib n arrivals fuel hn hn1]
  cases h : Simulator.loop lib fuel (startWorld lib n arrivals) with
  | error e =>
    obtain ⟨e1, w2⟩ := e
    have := loop_error lib fuel _ e1 w2 h
    subst this
    simp
  | ok w => simp

theorem Run_ticks (lib : Ns3) (n : Int) (arrivals : List Arrival) (fuel : Nat)
    (hn : 20 ≤ n) (hn1 : n ≤ 2147483647) (hfuel : arrivals.length + 201 ≤ fuel) :
    ∃ w, Experiment.Run lib arrivals fuel (Experiment.Experiment lib n) = .ok w ∧
      tickTimes w.out = (List.range 200).map Seconds := by
  have hlen := (startSim_spec arrivals).2.2.2.2
  obtain ⟨w, hw, ht⟩ := loop_ticks lib fuel 1 0 1 (startWorld lib n arrivals)
    (startWorld_pending lib n arrivals)
    (by
      show (startSim arrivals).events.length + (200 - 1) ≤ fuel
      omega)
  refine ⟨Simulator.Destroy w, ?_, ht⟩
  rw [Run_unfold lib n arrivals fuel hn hn1, hw]

theorem Run_bounded (lib : Ns3) (n : Int) (arrivals : List Arrival) (fuel : Nat)
    (hn : 20 ≤ n) (hn1 : n ≤ 2147483647)
    (hbytes : (arrivalBytes (delivered arrivals) : Int) ≤ 2147483647)
    (hcount : (arrivalCount (delivered arrivals) : Int) ≤ 2147483647) :
    (tickLines (Experiment.Run lib arrivals fuel (Experiment.Experiment lib n)).world.out).Pairwise
      (fun a b => a.2.1 ≤ b.2.1 ∧ a.2.2 ≤ b.2.2) := by
  have h := loop_invariant_running lib (Bounded 1) (ProcessOneEvent_bounded lib 1) fuel _
    (startWorld_bounded lib n arrivals hbytes hcount)
  rcases Run_world lib n arrivals fuel hn hn1 with h1 | h1
  · rw [h1]
    exact h.printed
  · rw [h1]
    exact h.printed

/-! ## Frame properties -/

theorem flow_world (w : World) (i : Nat) :
    (Experiment.Run.flow w i).world.exp = w.exp ∧
    (Experiment.Run.flow w i).world.sim = w.sim ∧
    (Experiment.Run.flow w i).world.out = w.out := by
  unfold Experiment.Run.flow
  split
  · exact ⟨rfl, rfl, rfl⟩
  · split
    · exact ⟨rfl, rfl, rfl⟩
    · simp only
      split
      · exact ⟨rfl, rfl, rfl⟩
      · exact ⟨rfl, rfl, rfl⟩

theorem flows_world (k : Nat) :
    ∀ (i : Nat) (w : World),
      (Experiment.Run.flows k i w).world.exp = w.exp ∧
      (Experiment.Run.flows k i w).world.sim = w.sim ∧
      (Experiment.Run.flows k i w).world.out = w.out := by
  induction k with
  | zero => intro i w; exact ⟨rfl, rfl, rfl⟩
  | succ k ih =>
    intro i w
    have h := flow_world w i
    unfold Experiment.Run.flows
    cases hf : Experiment.Run.flow w i with
    | error e =>
      rw [hf] at h
      exact h
    | ok w1 =>
      rw [hf] at h
      simp only
      obtain ⟨h1, h2, h3⟩ := ih (i + 1) w1
      exact ⟨h1.trans h.1, h2.trans h.2.1, h3.trans h.2.2⟩

theorem ProcessOneEvent_params (lib : Ns3) (a b : Int) (w : World)
    (h : w.exp.nNodes = a ∧ w.exp.nSinks = b) :
    (Simulator.ProcessOneEvent lib w).exp.nNodes = a ∧
    (Simulator.ProcessOneEvent lib w).exp.nSinks = b := by
  unfold Simulator.ProcessOneEvent
  split
  · exact h
  · rename_i e rest hev
    obtain ⟨ts, uid, impl⟩ := e
    cases impl with
    | CheckTransferredData => exact h
    | Stop => exact h
    | Deliver i d =>
      have hfr := Invoke_Deliver_frame lib i d
        { w with sim := { w.sim with events := rest, now := ts } }
      exact ⟨hfr.2.2.2.2.2.2.2.1.trans h.1, hfr.2.2.2.2.2.2.2.2.trans h.2⟩

theorem Run_params (lib : Ns3) (arrivals : List Arrival) (fuel : Nat) (w : World) :
    (Experiment.Run lib arrivals fuel w).world.exp.nNodes = w.exp.nNodes ∧
    (Experiment.Run lib arrivals fuel w).world.exp.nSinks = w.exp.nSinks := by
  unfold Experiment.Run
  simp only
  have hfl := flows_world (Experiment.Run.nodeSizes w).exp.nSinks.toNat 0
    (Experiment.Run.nodeSizes w)
  cases hf : Experiment.Run.flows (Experiment.Run.nodeSizes w).exp.nSinks.toNat 0
      (Experiment.Run.nodeSizes w) with
  | error e =>
    rw [hf] at hfl
    obtain ⟨e1, w1⟩ := e
    have h1 : w1.exp = w.exp := hfl.1
    show w1.exp.nNodes = w.exp.nNodes ∧ w1.exp.nSinks = w.exp.nSinks
    rw [h1]
    exact ⟨rfl, rfl⟩
  | ok w1 =>
    rw [hf] at hfl
    have h1 : w1.exp = w.exp := hfl.1
    simp only [Simulator.Run]
    have hinv := loop_invariant lib
      (fun x => x.exp.nNodes = w.exp.nNodes ∧ x.exp.nSinks = w.exp.nSinks)
      (ProcessOneEvent_params lib _ _) fuel
      { exp := (Experiment.CheckTransferredData w1).exp,
        sim := { scheduleArrivals arrivals
                  (Simulator.Stop (Seconds 200) (Experiment.CheckTransferredData w1).sim)
                 with stop := false },
        sockets := (Experiment.CheckTransferredData w1).sockets,
        apps := (Experiment.CheckTransferredData w1).apps,
        nodeSizes := (Experiment.CheckTransferredData w1).nodeSizes,
        out := (Experiment.CheckTransferredData w1).out }
      (by
        show w1.exp.nNodes = w.exp.nNodes ∧ w1.exp.nSinks = w.exp.nSinks
        rw [h1]
        exact ⟨rfl, rfl⟩)
    revert hinv
    generalize Simulator.loop lib fuel _ = r
    intro hinv
    cases r with
    | error e => obtain ⟨e1, w2⟩ := e; exact hinv
    | ok w2 => exact hinv

theorem wholeSeconds_chain (n : Nat) :
    List.Chain' (fun a b => b = a + Seconds 1) ((List.range n).map Seconds) := by
  rw [List.chain'_map]
  cases n with
  | zero => simp
  | succ m =>
    rw [List.chain'_range_succ]
    intro k _
    exact (Seconds_succ k).symm

/-! ## Claims about `Run` and the reporter -/

/-- C9: the counters are written by the receive callback only.  The reporter,
`SetupPacketReceive`, the node-size loop and the flow-installation loop of `Run`, the
stop event and `Simulator::Destroy` leave every field of the `Experiment` unchanged; `ReceivePacket` changes no field other than
`totalBytes` and `totalPackets`; `nNodes` and `nSinks` are the same after a whole `Run`,
however it ends. -/
theorem counters_written_only_by_ReceivePacket (lib : Ns3) (w : World) (socket : Socket)
    (addr : Ipv4Address) (node : Node) (k i : Nat) (arrivals : List Arrival) (fuel : Nat) :
    (Experiment.CheckTransferredData w).exp = w.exp ∧
    (Experiment.SetupPacketReceive w addr node).1.exp = w.exp ∧
    (Experiment.Run.nodeSizes w).exp = w.exp ∧
    (Experiment.Run.flows k i w).world.exp = w.exp ∧
    (Simulator.Invoke lib .CheckTransferredData w).exp = w.exp ∧
    (Simulator.Invoke lib .Stop w).exp = w.exp ∧
    (Simulator.Destroy w).exp = w.exp ∧
    (Experiment.ReceivePacket lib w socket).1.exp
      = { w.exp with totalBytes := (Experiment.ReceivePacket lib w socket).1.exp.totalBytes,
                     totalPackets := (Experiment.ReceivePacket lib w socket).1.exp.totalPackets } ∧
    (Experiment.ReceivePacket lib w socket).1.exp.nNodes = w.exp.nNodes ∧
    (Experiment.ReceivePacket lib w socket).1.exp.nSinks = w.exp.nSinks ∧
    (Experiment.Run lib arrivals fuel w).world.exp.nNodes = w.exp.nNodes ∧
    (Experiment.Run lib arrivals fuel w).world.exp.nSinks = w.exp.nSinks := by
  refine ⟨rfl, rfl, rfl, (flows_world k i w).1, rfl, rfl, rfl, ?_, ?_, ?_,
    (Run_params lib arrivals fuel w).1, (Run_params lib arrivals fuel w).2⟩
  · rw [ReceivePacket_closed lib socket.rxQueue w socket rfl]
  · rw [ReceivePacket_closed lib socket.rxQueue w socket rfl]
  · rw [ReceivePacket_closed lib socket.rxQueue w socket rfl]

/-- C10: every execution of the reporter prints exactly one line, `Time [t] Packets: p
Bytes: b` with the current time and counter values, and adds exactly one event to the
event list, an execution of itself one second later; hence in a run on at least 20
nodes the reporter executes at whole seconds, each one second after the previous. -/
theorem CheckTransferredData_prints_and_reschedules (lib : Ns3) (w : World) (n : Int)
    (arrivals : List Arrival) (fuel : Nat) (hn : 20 ≤ n) (hn1 : n ≤ INT_MAX)
    (hfuel : arrivals.length + 201 ≤ fuel) :
    (Experiment.CheckTransferredData w).out
      = w.out ++ [Line.tick w.sim.now w.exp.totalPackets w.exp.totalBytes] ∧
    Line.render lib (Line.tick w.sim.now w.exp.totalPackets w.exp.totalBytes)
      = "Time [" ++ lib.showSeconds w.sim.now ++ "] Packets: " ++ toString w.exp.totalPackets
          ++ " Bytes: " ++ toString w.exp.totalBytes ++ "\n" ∧
    (Experiment.CheckTransferredData w).sim.events.Perm
      (⟨w.sim.now + Seconds 1, w.sim.uid, .CheckTransferredData⟩ :: w.sim.events) ∧
    Seconds 1 = 1000000000 ∧
    ∃ w1, Experiment.Run lib arrivals fuel (Experiment.Experiment lib n) = .ok w1 ∧
      (∀ t ∈ tickTimes w1.out, ∃ j, t = Seconds j) ∧
      List.Chain' (fun a b => b = a + Seconds 1) (tickTimes w1.out) := by
  unfold INT_MAX at hn1
  refine ⟨rfl, rfl, List.perm_orderedInsert _ _ _, rfl, ?_⟩
  obtain ⟨w1, hw1, ht⟩ := Run_ticks lib n arrivals fuel hn hn1 hfuel
  refine ⟨w1, hw1, ?_, ?_⟩
  · intro t h
    rw [ht] at h
    obtain ⟨j, _, hj⟩ := List.mem_map.mp h
    exact ⟨j, hj.symm⟩
  · rw [ht]
    exact wholeSeconds_chain 200

/-- Witness for C10: the reporter on the freshly constructed world, and a run on 20
nodes without deliveries. -/
theorem CheckTransferredData_prints_and_reschedules_witness :
    (Experiment.CheckTransferredData (Experiment.Experiment sampleLib 20)).out
      = [Line.tick 0 0 0] ∧
    Line.render sampleLib (Line.tick 0 0 0) = "Time [0] Packets: 0 Bytes: 0\n" ∧
    ∃ w1, Experiment.Run sampleLib [] 201 (Experiment.Experiment sampleLib 20) = .ok w1 ∧
      (∀ t ∈ tickTimes w1.out, ∃ j, t = Seconds j) ∧
      List.Chain' (fun a b => b = a + Seconds 1) (tickTimes w1.out) :=
  ⟨(CheckTransferredData_prints_and_reschedules sampleLib (Experiment.Experiment sampleLib 20)
      20 [] 201 (by decide) (by decide) (by decide)).1,
   (CheckTransferredData_prints_and_reschedules sampleLib (Experiment.Experiment sampleLib 20)
      20 [] 201 (by decide) (by decide) (by decide)).2.1,
   (CheckTransferredData_prints_and_reschedules sampleLib (Experiment.Experiment sampleLib 20)
      20 [] 201 (by decide) (by decide) (by decide)).2.2.2.2⟩

theorem templates_differ (a x : String) :
    a ++ " received one packet from " ++ x ++ "\n" ≠ a ++ " received one packet" ++ "\n" := by
  intro h
  have h1 := congrArg String.length h
  simp only [String.length_append] at h1
  have h2 : " received one packet from ".length = 26 := by decide
  have h3 : " received one packet".length = 20 := by decide
  omega

/-- C8 (amended): every drained datagram is counted by the two updates
`totalBytes += size` and `totalPackets += 1` and gets exactly one line, whatever its
sender address and whatever the classifier answers: the loop on a queue headed by a
datagram is the loop on the rest of the queue after these two updates and that one
line.  The updates add exactly `size` and 1 whenever the prior counters are in the
range of `int` and the results do not exceed `INT_MAX`.  The line is the template with
the sender address exactly when the address classifies and the template without it
exactly when it does not. -/
theorem ReceivePacket_counts_whatever_the_sender (lib lib2 : Ns3) (w : World) (socket : Socket)
    (packet : Packet) (senderAddress : Address) (rest : List Datagram) (now : Nat) :
    Experiment.ReceivePacket lib w { socket with rxQueue := ⟨packet, senderAddress⟩ :: rest }
      = Experiment.ReceivePacket lib
          { w with
            exp := { w.exp with
                     totalBytes := addAssignU32 w.exp.totalBytes packet.GetSize,
                     totalPackets := addAssignInt w.exp.totalPackets 1 },
            out := w.out ++ [PrintPacketInfo lib w.sim.now socket packet senderAddress] }
          { socket with rxQueue := rest } ∧
    (Experiment.ReceivePacket lib w socket).1.exp.totalBytes
      = socket.rxQueue.foldl (fun acc d => addAssignU32 acc d.packet.GetSize)
          w.exp.totalBytes ∧
    (Experiment.ReceivePacket lib w socket).1.exp.totalPackets
      = socket.rxQueue.foldl (fun acc _ => addAssignInt acc 1) w.exp.totalPackets ∧
    (Experiment.ReceivePacket lib w socket).1.out
      = w.out ++ socket.rxQueue.map
          (fun d => PrintPacketInfo lib w.sim.now socket d.packet d.sender) ∧
    (Experiment.ReceivePacket lib w socket).1.exp
      = (Experiment.ReceivePacket lib2 w socket).1.exp ∧
    (-2147483648 ≤ w.exp.totalBytes → w.exp.totalBytes + packet.GetSize ≤ INT_MAX →
      addAssignU32 w.exp.totalBytes packet.GetSize = w.exp.totalBytes + packet.GetSize) ∧
    (-2147483648 ≤ w.exp.totalPackets → w.exp.totalPackets + 1 ≤ INT_MAX →
      addAssignInt w.exp.totalPackets 1 = w.exp.totalPackets + 1) ∧
    (-2147483648 ≤ w.exp.totalBytes →
      w.exp.totalBytes + totalSize socket.rxQueue ≤ INT_MAX →
      (Experiment.ReceivePacket lib w socket).1.exp.totalBytes
        = w.exp.totalBytes + totalSize socket.rxQueue) ∧
    (-2147483648 ≤ w.exp.totalPackets →
      w.exp.totalPackets + socket.rxQueue.length ≤ INT_MAX →
      (Experiment.ReceivePacket lib w socket).1.exp.totalPackets
        = w.exp.totalPackets + socket.rxQueue.length) ∧
    (Line.render lib (PrintPacketInfo lib now socket packet senderAddress)
        = lib.showSeconds now ++ " " ++ toString socket.node.id ++ " received one packet from "
            ++ lib.showIpv4 senderAddress ++ "\n"
      ↔ lib.IsMatchingType senderAddress = true) ∧
    (Line.render lib (PrintPacketInfo lib now socket packet senderAddress)
        = lib.showSeconds now ++ " " ++ toString socket.node.id ++ " received one packet" ++ "\n"
      ↔ lib.IsMatchingType senderAddress = false) := by
  unfold INT_MAX
  refine ⟨?_, ?_, ?_, ?_, ?_, ?_, ?_, ?_, ?_, ?_, ?_⟩
  · rw [ReceivePacket_closed lib (⟨packet, senderAddress⟩ :: rest) w _ rfl,
      ReceivePacket_closed lib rest _ _ rfl]
    simp [bytesAfter, packetsAfter, PrintPacketInfo]
  · rw [ReceivePacket_closed lib socket.rxQueue w socket rfl]
    rfl
  · rw [ReceivePacket_closed lib socket.rxQueue w socket rfl]
    rfl
  · rw [ReceivePacket_closed lib socket.rxQueue w socket rfl]
  · rw [ReceivePacket_closed lib socket.rxQueue w socket rfl,
      ReceivePacket_closed lib2 socket.rxQueue w socket rfl]
  · intro h1 h2
    exact addAssignU32_exact _ _ h1 h2
  · intro h1 h2
    exact addAssignInt_exact _ h1 h2
  · intro h1 h2
    rw [ReceivePacket_closed lib socket.rxQueue w socket rfl]
    exact bytesAfter_exact _ _ h1 h2
  · intro h1 h2
    rw [ReceivePacket_closed lib socket.rxQueue w socket rfl]
    exact packetsAfter_exact _ _ h1 h2
  · cases hc : lib.IsMatchingType senderAddress with
    | true => simp [PrintPacketInfo, hc, Line.render]
    | false =>
      simp only [PrintPacketInfo, hc, Line.render]
      constructor
      · intro h
        exact absurd h.symm (templates_differ _ _)
      · intro h
        simp at h
  · cases hc : lib.IsMatchingType senderAddress with
    | true =>
      simp only [PrintPacketInfo, hc, Line.render]
      constructor
      · intro h
        exact absurd h (templates_differ _ _)
      · intro h
        simp at h
    | false => simp [PrintPacketInfo, hc, Line.render]

/-- Witness for C8: after construction, a queue of two 64-byte datagrams, the first
from an address that does not classify, is counted as 2 packets and 128 bytes, and the
line of the first datagram at 150 s on node 0 is the template without a sender. -/
theorem ReceivePacket_counts_whatever_the_sender_witness :
    sampleLib.IsMatchingType ⟨0, []⟩ = false ∧
    (Experiment.ReceivePacket sampleLib (Experiment.Experiment sampleLib 20)
        (sinkSocket [⟨⟨64⟩, ⟨0, []⟩⟩, datagram64])).1.exp.totalBytes = 0 + 128 ∧
    (Experiment.ReceivePacket sampleLib (Experiment.Experiment sampleLib 20)
        (sinkSocket [⟨⟨64⟩, ⟨0, []⟩⟩, datagram64])).1.exp.totalPackets = 0 + 2 ∧
    Line.render sampleLib (PrintPacketInfo sampleLib (Seconds 150)
        (sinkSocket [⟨⟨64⟩, ⟨0, []⟩⟩, datagram64]) ⟨64⟩ ⟨0, []⟩)
      = "150 0 received one packet\n" :=
  ⟨by decide,
   (ReceivePacket_counts_whatever_the_sender sampleLib sampleLib
      (Experiment.Experiment sampleLib 20) (sinkSocket [⟨⟨64⟩, ⟨0, []⟩⟩, datagram64])
      ⟨64⟩ ⟨0, []⟩ [] (Seconds 150)).2.2.2.2.2.2.2.1 (by decide) (by decide),
   (ReceivePacket_counts_whatever_the_sender sampleLib sampleLib
      (Experiment.Experiment sampleLib 20) (sinkSocket [⟨⟨64⟩, ⟨0, []⟩⟩, datagram64])
      ⟨64⟩ ⟨0, []⟩ [] (Seconds 150)).2.2.2.2.2.2.2.2.1 (by decide) (by decide),
   (ReceivePacket_counts_whatever_the_sender sampleLib sampleLib
      (Experiment.Experiment sampleLib 20) (sinkSocket [⟨⟨64⟩, ⟨0, []⟩⟩, datagram64])
      ⟨64⟩ ⟨0, []⟩ [] (Seconds 150)).2.2.2.2.2.2.2.2.2.2.mpr (by decide)⟩

/-- C8 as stated fails: with `totalBytes` at `INT_MAX`, a 64-byte datagram whose sender
address does not classify is drained and `totalBytes` becomes `-2147483585`, not
`totalBytes + 64`. -/
theorem ReceivePacket_unclassified_datagram_wraps :
    sampleLib.IsMatchingType ⟨0, []⟩ = false ∧
    (Experiment.ReceivePacket sampleLib (worldWithBytes 2147483647)
        (sinkSocket [⟨⟨64⟩, ⟨0, []⟩⟩])).2.rxQueue = [] ∧
    (Experiment.ReceivePacket sampleLib (worldWithBytes 2147483647)
        (sinkSocket [⟨⟨64⟩, ⟨0, []⟩⟩])).1.exp.totalBytes = -2147483585 ∧
    (Experiment.ReceivePacket sampleLib (worldWithBytes 2147483647)
        (sinkSocket [⟨⟨64⟩, ⟨0, []⟩⟩])).1.exp.totalBytes
      ≠ (worldWithBytes 2147483647).exp.totalBytes + (Packet.mk 64).GetSize := by
  rw [ReceivePacket_closed sampleLib [⟨⟨64⟩, ⟨0, []⟩⟩] _ _ rfl]
  decide

/-- C2: for `nNodes >= 20`, whatever the network delivers and however long the engine
runs, the world `Run` leaves holds exactly 10 flows; flow `i` sits on node `i + 10`,
is addressed to (address of interface `i`, port 9), starts at 100 s and stops at 200 s,
and the receive endpoint `i` sits on node `i` bound to the same address and port.  So
the sources are pairwise distinct, the sinks are pairwise distinct, sources lie in
`[10, 20)`, sinks in `[0, 10)`, and no source is a sink; when the ten sink addresses
are pairwise distinct, so are the destinations of the flows. -/
theorem Run_installs_ten_flows (lib : Ns3) (n : Int) (arrivals : List Arrival) (fuel : Nat)
    (hn : 20 ≤ n) (hn1 : n ≤ INT_MAX) :
    (Experiment.Run lib arrivals fuel (Experiment.Experiment lib n)).world.apps.length = 10 ∧
    (∀ i, i < 10 → ∃ addr,
      GetAddress (Experiment.Run lib arrivals fuel
        (Experiment.Experiment lib n)).world.exp.interfaces i = .ok addr ∧
      NodeContainerGet (Experiment.Run lib arrivals fuel
        (Experiment.Experiment lib n)).world.exp.c (i + 10) = .ok ⟨i + 10⟩ ∧
      (Experiment.Run lib arrivals fuel (Experiment.Experiment lib n)).world.apps.get? i
        = some { node := ⟨i + 10⟩, remote := ⟨addr, 9⟩,
                 startTime := Seconds 100, stopTime := Seconds 200 } ∧
      (Experiment.Run lib arrivals fuel (Experiment.Experiment lib n)).world.sockets.get? i
        = some { node := ⟨i⟩, bound := some ⟨addr, 9⟩, recvCallback := true, rxQueue := [] }) ∧
    ((Experiment.Run lib arrivals fuel (Experiment.Experiment lib n)).world.apps.map
      (fun a => a.node.id)).Nodup ∧
    ((Experiment.Run lib arrivals fuel (Experiment.Experiment lib n)).world.sockets.map
      (fun s => s.node.id)).Nodup ∧
    (∀ a ∈ (Experiment.Run lib arrivals fuel (Experiment.Experiment lib n)).world.apps,
      10 ≤ a.node.id ∧ a.node.id < 20) ∧
    (∀ s ∈ (Experiment.Run lib arrivals fuel (Experiment.Experiment lib n)).world.sockets,
      s.node.id < 10) ∧
    ((∀ i j, i < 10 → j < 10 → lib.Assign i = lib.Assign j → i = j) →
      ((Experiment.Run lib arrivals fuel (Experiment.Experiment lib n)).world.apps.map
        (fun a => a.remote)).Nodup) := by
  unfold INT_MAX at hn1
  have hF := Run_frame lib n arrivals fuel hn hn1
  have hc := fresh_containers lib n (by omega) hn1
  have happs : (Experiment.Run lib arrivals fuel (Experiment.Experiment lib n)).world.apps
      = (List.range 10).map (flowOf lib) := hF.apps
  have hsocks : (Experiment.Run lib arrivals fuel (Experiment.Experiment lib n)).world.sockets
      = (List.range 10).map (sinkOf lib) := hF.sockets
  have hcc : (Experiment.Run lib arrivals fuel (Experiment.Experiment lib n)).world.exp.c
      = (List.range n.toNat).map Node.mk := hF.c.trans hc.1
  have hii : (Experiment.Run lib arrivals fuel (Experiment.Experiment lib n)).world.exp.interfaces
      = (List.range n.toNat).map lib.Assign := hF.interfaces.trans hc.2
  rw [happs, hsocks, hcc, hii]
  have hsrc : ((List.range 10).map (flowOf lib)).map (fun a => a.node.id)
      = (List.range 10).map (fun i => i + 10) := by
    rw [List.map_map]
    rfl
  have hsnk : ((List.range 10).map (sinkOf lib)).map (fun s => s.node.id)
      = (List.range 10).map (fun i => i) := by
    rw [List.map_map]
    rfl
  rw [hsrc, hsnk]
  refine ⟨by simp, ?_, by decide, by decide, ?_, ?_, ?_⟩
  · intro i hi
    refine ⟨lib.Assign i, GetAddress_range lib _ i (by omega),
      NodeContainerGet_range _ (i + 10) (by omega), ?_, ?_⟩
    · simp [List.get?_eq_getElem?, hi, flowOf]
    · simp [List.get?_eq_getElem?, hi, sinkOf]
  · intro a ha
    obtain ⟨i, hi, rfl⟩ := List.mem_map.mp ha
    have := List.mem_range.mp hi
    simp only [flowOf]
    omega
  · intro s hs
    obtain ⟨i, hi, rfl⟩ := List.mem_map.mp hs
    exact List.mem_range.mp hi
  · intro hinj
    rw [List.map_map]
    apply List.Nodup.map_on _ (List.nodup_range 10)
    intro i hi j hj hij
    simp only [Function.comp, flowOf, InetSocketAddress.mk.injEq, and_true] at hij
    exact hinj i j (List.mem_range.mp hi) (List.mem_range.mp hj) hij

/-- Witness for C2: 20 nodes, no deliveries, 201 engine steps. -/
theorem Run_installs_ten_flows_witness :
    (20 : Int) ≤ 20 ∧
    (Experiment.Run sampleLib [] 201 (Experiment.Experiment sampleLib 20)).world.apps.length
      = 10 ∧
    ((Experiment.Run sampleLib [] 201 (Experiment.Experiment sampleLib 20)).world.apps.map
      (fun a => a.remote)).Nodup :=
  ⟨by decide, (Run_installs_ten_flows sampleLib 20 [] 201 (by decide) (by decide)).1,
   (Run_installs_ten_flows sampleLib 20 [] 201 (by decide) (by decide)).2.2.2.2.2.2
     (fun i j _ _ h => Nat.add_left_cancel h)⟩

/-- C7: for `N >= 20`, `Run` never fails with an index error, and with enough engine
steps it completes; each lookup of the installation loop (interface `i`, node `i`,
node `i + nSinks` for `i < nSinks`) is below `N` and succeeds, and every index of the
node-size loop is below `N`. -/
theorem Run_lookups_in_range (lib : Ns3) (n : Int) (arrivals : List Arrival) (fuel : Nat)
    (hn : 20 ≤ n) (hn1 : n ≤ INT_MAX) :
    (∀ w1, Experiment.Run lib arrivals fuel (Experiment.Experiment lib n)
      ≠ .error (.indexOutOfRange, w1)) ∧
    (arrivals.length + 201 ≤ fuel →
      ∃ w1, Experiment.Run lib arrivals fuel (Experiment.Experiment lib n) = .ok w1) ∧
    (Experiment.Experiment lib n).exp.c.length = n.toNat ∧
    (Experiment.Experiment lib n).exp.interfaces.length = n.toNat ∧
    (∀ i : Nat, (i : Int) < (Experiment.Experiment lib n).exp.nSinks →
      i < n.toNat ∧
      toUInt32 ((i : Int) + (Experiment.Experiment lib n).exp.nSinks) < n.toNat ∧
      GetAddress (Experiment.Experiment lib n).exp.interfaces i = .ok (lib.Assign i) ∧
      NodeContainerGet (Experiment.Experiment lib n).exp.c i = .ok ⟨i⟩ ∧
      NodeContainerGet (Experiment.Experiment lib n).exp.c
        (toUInt32 ((i : Int) + (Experiment.Experiment lib n).exp.nSinks)) = .ok ⟨i + 10⟩) ∧
    (∀ x ∈ (Experiment.Run lib arrivals fuel (Experiment.Experiment lib n)).world.nodeSizes,
      x.1 < n.toNat) := by
  unfold INT_MAX at hn1
  have hF := Run_frame lib n arrivals fuel hn hn1
  have hc := fresh_containers lib n (by omega) hn1
  refine ⟨fun w1 => Run_no_index_error lib n arrivals fuel hn hn1 w1, ?_, ?_, ?_, ?_, ?_⟩
  · intro hfuel
    obtain ⟨w1, hw1, _⟩ := Run_ticks lib n arrivals fuel hn hn1 hfuel
    exact ⟨w1, hw1⟩
  · rw [hc.1]
    simp
  · rw [hc.2]
    simp
  · intro i hi
    have hs : (Experiment.Experiment lib n).exp.nSinks = 10 := rfl
    rw [hs] at hi ⊢
    have hu : toUInt32 ((i : Int) + 10) = i + 10 := by
      unfold toUInt32
      omega
    rw [hu, hc.1, hc.2]
    exact ⟨by omega, by omega, GetAddress_range lib _ i (by omega),
      NodeContainerGet_range _ i (by omega), NodeContainerGet_range _ (i + 10) (by omega)⟩
  · intro x hx
    rw [hF.nodeSizes] at hx
    simp only [startWorld, List.mem_map, List.mem_range] at hx
    obtain ⟨i, hi, rfl⟩ := hx
    exact hi

/-- Witness for C7: 20 nodes, no deliveries, 201 engine steps. -/
theorem Run_lookups_in_range_witness :
    (20 : Int) ≤ 20 ∧
    ∃ w1, Experiment.Run sampleLib [] 201 (Experiment.Experiment sampleLib 20) = .ok w1 :=
  ⟨by decide,
   (Run_lookups_in_range sampleLib 20 [] 201 (by decide) (by decide)).2.1 (by decide)⟩

/-- C1 (amended): the constructor validates nothing.  For every `nNodes < 20` it
yields an instance with `nNodes` stored, `nSinks = 10`, both counters 0 and as many
nodes and interfaces as `c.Create(nNodes)` makes (`nNodes` of them when
`nNodes >= 0`); it schedules no event and installs no flow and no receive endpoint. -/
theorem Experiment_constructor_validates_nothing (lib : Ns3) (n : Int) (h : n < 20) :
    (Experiment.Experiment lib n).exp.nNodes = n ∧
    (Experiment.Experiment lib n).exp.nSinks = 10 ∧
    (Experiment.Experiment lib n).exp.totalBytes = 0 ∧
    (Experiment.Experiment lib n).exp.totalPackets = 0 ∧
    (Experiment.Experiment lib n).exp.c.length = toUInt32 n ∧
    (Experiment.Experiment lib n).exp.interfaces.length = toUInt32 n ∧
    (0 ≤ n → ((Experiment.Experiment lib n).exp.c.length : Int) = n) ∧
    (Experiment.Experiment lib n).sim.events = [] ∧
    (Experiment.Experiment lib n).sockets = [] ∧
    (Experiment.Experiment lib n).apps = [] ∧
    (Experiment.Experiment lib n).out = [] := by
  refine ⟨rfl, rfl, rfl, rfl, by simp [Experiment.Experiment],
    by simp [Experiment.Experiment], ?_, rfl, rfl, rfl, rfl⟩
  intro h0
  simp only [Experiment.Experiment, List.length_map, List.length_range]
  unfold toUInt32
  omega

/-- Witness for C1: construction with 5 nodes. -/
theorem Experiment_constructor_validates_nothing_witness :
    (5 : Int) < 20 ∧ (Experiment.Experiment sampleLib 5).exp.nNodes = 5 ∧
    (Experiment.Experiment sampleLib 5).exp.c.length = toUInt32 5 :=
  ⟨by decide, (Experiment_constructor_validates_nothing sampleLib 5 (by decide)).1,
    (Experiment_constructor_validates_nothing sampleLib 5 (by decide)).2.2.2.2.1⟩

/-- C1 as stated fails: with `nNodes = 15` the constructor yields an instance with 15
nodes, and `Run` on it installs six receive endpoints and five flows before the lookup
of node 15 is out of range. -/
theorem Run_on_15_nodes_installs_flows :
    (Experiment.Experiment sampleLib 15).exp.nNodes = 15 ∧
    (Experiment.Experiment sampleLib 15).exp.c.length = 15 ∧
    (Experiment.Run sampleLib [] 0 (Experiment.Experiment sampleLib 15)).failure
      = some Error.indexOutOfRange ∧
    (Experiment.Run sampleLib [] 0 (Experiment.Experiment sampleLib 15)).world.apps.length = 5 ∧
    (Experiment.Run sampleLib [] 0 (Experiment.Experiment sampleLib 15)).world.sockets.length
      = 6 := by
  decide

/-- C6 (amended): in a run on at least 20 nodes with enough engine steps, whatever
the network delivers, exactly 200 executions of the reporter occur, at the simulated
times 0 s, 1 s, ..., 199 s; and the values printed by a later execution are not below
those printed by an earlier one, provided the bytes and the datagrams delivered to the
sinks during the run (before the stop at 200 s) do not exceed `INT_MAX`. -/
theorem Run_reporter_ticks (lib : Ns3) (n : Int) (arrivals : List Arrival) (fuel : Nat)
    (hn : 20 ≤ n) (hn1 : n ≤ INT_MAX) (hfuel : arrivals.length + 201 ≤ fuel) :
    ∃ w, Experiment.Run lib arrivals fuel (Experiment.Experiment lib n) = .ok w ∧
      tickTimes w.out = (List.range 200).map Seconds ∧
      (tickLines w.out).length = 200 ∧
      ((arrivalBytes (delivered arrivals) : Int) ≤ INT_MAX →
        (arrivalCount (delivered arrivals) : Int) ≤ INT_MAX →
        (tickLines w.out).Pairwise (fun a b => a.2.1 ≤ b.2.1 ∧ a.2.2 ≤ b.2.2)) := by
  unfold INT_MAX at hn1
  unfold INT_MAX
  obtain ⟨w, hw, ht⟩ := Run_ticks lib n arrivals fuel hn hn1 hfuel
  refine ⟨w, hw, ht, ?_, ?_⟩
  · have hl := congrArg List.length ht
    simpa [tickTimes] using hl
  · intro hbytes hcount
    have hb := Run_bounded lib n arrivals fuel hn hn1 hbytes hcount
    rw [hw] at hb
    exact hb

/-- Witness for C6: 20 nodes; two 64-byte datagrams reach sink 0 at 150 s, and a
delivery of `2^31` bytes stamped 300 s never happens. -/
theorem Run_reporter_ticks_witness :
    arrivalBytes (delivered [⟨Seconds 150, 0, [datagram64, datagram64]⟩,
      ⟨Seconds 300, 1, [⟨⟨2147483648⟩, sampleSender⟩]⟩]) = 128 ∧
    ∃ w, Experiment.Run sampleLib [⟨Seconds 150, 0, [datagram64, datagram64]⟩,
          ⟨Seconds 300, 1, [⟨⟨2147483648⟩, sampleSender⟩]⟩] 203
        (Experiment.Experiment sampleLib 20) = .ok w ∧
      tickTimes w.out = (List.range 200).map Seconds ∧
      (tickLines w.out).length = 200 ∧
      (tickLines w.out).Pairwise (fun a b => a.2.1 ≤ b.2.1 ∧ a.2.2 ≤ b.2.2) :=
  ⟨by decide,
   (Run_reporter_ticks sampleLib 20 [⟨Seconds 150, 0, [datagram64, datagram64]⟩,
      ⟨Seconds 300, 1, [⟨⟨2147483648⟩, sampleSender⟩]⟩] 203
      (by decide) (by decide) (by decide)).imp
    (fun _ h => ⟨h.1, h.2.1, h.2.2.1, h.2.2.2 (by decide) (by decide)⟩)⟩

/-- C6 as stated fails: in the run on 20 nodes without deliveries the reporter executes
at time 0 and does not execute at 200 s, so its execution times are not
`1 s, 2 s, ..., 200 s`. -/
theorem Run_ticks_start_at_zero_and_miss_200 :
    ∃ w, Experiment.Run sampleLib [] 201 (Experiment.Experiment sampleLib 20) = .ok w ∧
      (tickTimes w.out).head? = some 0 ∧
      Seconds 200 ∉ tickTimes w.out ∧
      (tickTimes w.out).length = 200 ∧
      tickTimes w.out ≠ (List.range' 1 200).map Seconds := by
  obtain ⟨w, hw, ht⟩ := Run_ticks sampleLib 20 [] 201 (by decide) (by decide) (by decide)
  refine ⟨w, hw, ?_, ?_, ?_, ?_⟩
  · rw [ht]
    decide
  · rw [ht]
    intro h
    obtain ⟨j, hj, hj2⟩ := List.mem_map.mp h
    have := List.mem_range.mp hj
    unfold Seconds at hj2
    omega
  · rw [ht]
    simp
  · rw [ht]
    intro h
    have h1 := congrArg List.head? h
    revert h1
    decide

end Manet
